import Mathlib

/-!
Verification of the meraki-status monitor and SLA API.

The monitor side (monitor/monitor.py) is embedded as pure functions over an
`Office` record: `instant_state`, the debounce step of `probe_office`, and
`OfficeManager.reconcile`.  The API side (api/app.py) is embedded as functions
over a `Store` record: the `/offices`, `/ingest/state_change`, `/ingest/tick`
endpoints and the `/sla` query, whose SQL window computation is translated into
list operations (sorting by `at_ts`, the `LEAD` pairing, the clamped segment
arithmetic, and the per-state sums).  Machine integers are modelled by `Int`
(timestamps) and `Nat` (retry counters); floating point ratios are modelled by
`Rat` with explicit rounding to six decimal places.
-/

/-! ## Definitions -/

/-- The closed state enumeration used throughout the system. -/
inductive St where
  | unknown
  | up
  | degraded
  | down
deriving DecidableEq, Repr

/-- Translation of `instant_state` (monitor.py): classification of one probe
triple.  Never returns `unknown`. -/
def instant_state (gw mx ipsec : Bool) : St :=
  if gw || mx then (if ipsec then St.up else St.degraded) else St.down

/-- Raw sample attached to an office runtime (the `last_sample` dict). -/
structure LastSample where
  gateway : Bool
  mx : Bool
  ipsec : Bool
  ts : Int
deriving DecidableEq, Repr

/-- The monitor-side `Office` dataclass: configuration plus runtime fields. -/
structure Office where
  name : String
  gateway_ip : String
  mx_ip : String
  tunnel_probe_ip : String
  retries_down : Nat := 2
  retries_up : Nat := 1
  state : St := St.unknown
  fail_streak : Nat := 0
  ok_streak : Nat := 0
  last_change : Int := 0
  last_sample : Option LastSample := none
deriving DecidableEq, Repr

/-- Test `new_state in \x7b"down", "degraded"\x7d` from the debounce branch. -/
def isBad (s : St) : Bool :=
  s = St.down || s = St.degraded

/-- Test `office.state in \x7b"up", "unknown"\x7d` from the debounce branch. -/
def isOkish (s : St) : Bool :=
  s = St.up || s = St.unknown

/-- Translation of the debounce section of `probe_office` (monitor.py):
given the current office runtime and an instantaneous classification, produce
the updated runtime and whether a transition committed (`changed`). -/
def debounceStep (office : Office) (new_state : St) (now : Int) : Office × Bool :=
  if new_state = office.state then
    ({ office with ok_streak := office.ok_streak + 1, fail_streak := 0 }, false)
  else if isBad new_state && isOkish office.state then
    let f := office.fail_streak + 1
    if office.retries_down ≤ f then
      ({ office with state := new_state, fail_streak := 0, ok_streak := 0,
                     last_change := now }, true)
    else
      ({ office with fail_streak := f }, false)
  else
    let k := office.ok_streak + 1
    if office.retries_up ≤ k then
      ({ office with state := new_state, ok_streak := 0, fail_streak := 0,
                     last_change := now }, true)
    else
      ({ office with ok_streak := k }, false)

/-- Run the debounce machine over a list of instantaneous classifications,
collecting the committed transitions as `(sample index, old state, new state)`.
Sample indices count from `i`. -/
def debounceCommits : Office → Nat → List St → List (Nat × St × St)
  | _, _, [] => []
  | o, i, n :: rest =>
    let r := debounceStep o n 0
    if r.2 then (i, o.state, r.1.state) :: debounceCommits r.1 (i + 1) rest
    else debounceCommits r.1 (i + 1) rest

/-- A row of the `offices` table (the registry). -/
structure OfficeRow where
  name : String
  gateway_ip : String
  mx_ip : String
  tunnel_probe_ip : String
  retries_down : Nat := 2
  retries_up : Nat := 1
deriving DecidableEq, Repr

/-- A row of the `state_changes` table. -/
structure SCRow where
  at_ts : Int
  from_state : St
  to_state : St
  sample_gateway : Bool
  sample_mx : Bool
  sample_ipsec : Bool
deriving DecidableEq, Repr

/-- A row of the `samples` table (office identified by name). -/
structure SampleRow where
  office : String
  ts : Int
  gateway : Bool
  mx : Bool
  ipsec : Bool
deriving DecidableEq, Repr

/-- The durable store.  The `state_changes` table is keyed by office name
(names are unique in the registry, so the name stands for the office id);
per-office rows are kept in insertion order. -/
structure Store where
  offices : List OfficeRow
  changes : String → List SCRow
  samples : List SampleRow

/-- The empty store produced by `init()`. -/
def emptyStore : Store :=
  { offices := [], changes := fun _ => [], samples := [] }

/-- Registry membership check (`SELECT id FROM offices WHERE name=?`). -/
def registered (st : Store) (name : String) : Bool :=
  st.offices.any (fun o => o.name == name)

/-- Translation of `upsert_office` (`POST /offices`): insert, or on name
conflict update every field except the id. -/
def upsert_office (st : Store) (o : OfficeRow) : Store :=
  if st.offices.any (fun r => r.name == o.name) then
    { st with offices := st.offices.map (fun r => if r.name == o.name then o else r) }
  else
    { st with offices := st.offices ++ [o] }

/-- Body of `POST /ingest/state_change` (the `EventStateChange` model).
The pydantic model restricts `state` to `up`, `degraded` or `down`; the
`sample` dict is read through `int(bool(...))`, i.e. three booleans. -/
structure EventSC where
  office : String
  state : St
  sample_gateway : Bool
  sample_mx : Bool
  sample_ipsec : Bool
  at_ts : Int
deriving DecidableEq, Repr

/-- The correlated subquery of `ingest_state_change`: the row with the largest
`at_ts` strictly below `t` (`WHERE at_ts < ? ORDER BY at_ts DESC LIMIT 1`). -/
def mostRecentBefore : List SCRow → Int → Option SCRow
  | [], _ => none
  | r :: rest, t =>
    match mostRecentBefore rest t with
    | none => if r.at_ts < t then some r else none
    | some b => if r.at_ts < t ∧ b.at_ts < r.at_ts then some r else some b

/-- The `COALESCE(..., 'unknown')` around the subquery. -/
def derivedFrom (rows : List SCRow) (t : Int) : St :=
  (mostRecentBefore rows t).elim St.unknown (·.to_state)

/-- The row assembled by the `INSERT ... SELECT` of `ingest_state_change`:
the caller supplies office, timestamp, state and sample, while `from_state` is
derived server-side. -/
def insertedRow (rows : List SCRow) (ev : EventSC) : SCRow :=
  { at_ts := ev.at_ts, from_state := derivedFrom rows ev.at_ts,
    to_state := ev.state, sample_gateway := ev.sample_gateway,
    sample_mx := ev.sample_mx, sample_ipsec := ev.sample_ipsec }

/-- The `INSERT OR IGNORE` into `state_changes`: a duplicate `(office, at_ts)`
is ignored (second component is the cursor rowcount). -/
def insertSC (rows : List SCRow) (ev : EventSC) : List SCRow × Nat :=
  if rows.any (fun r => r.at_ts == ev.at_ts) then (rows, 0)
  else (rows ++ [insertedRow rows ev], 1)

/-- An ASCII apostrophe, as interpolated by the `Unknown office` f-string. -/
def squote : String := String.singleton (Char.ofNat 39)

/-- Detail string of the `HTTPException(400, ...)` raised for an unregistered
office name. -/
def unknownOfficeMsg (name : String) : String :=
  "Unknown office " ++ squote ++ name ++ squote

/-- Replace one office's state-change table in the store. -/
def updateChanges (st : Store) (name : String) (rows : List SCRow) : Store :=
  { st with changes := fun k => if k = name then rows else st.changes k }

/-- Translation of `ingest_state_change` (`POST /ingest/state_change`).
An `unknown` state is rejected by pydantic validation before the handler runs
(modelled as a 422); an unregistered office raises the 400; otherwise the
insert runs and the handler reports the rowcount. -/
def ingest_state_change (st : Store) (ev : EventSC) :
    Except (Nat × String) (Store × Nat) :=
  if ev.state = St.unknown then
    .error (422, "validation error")
  else if registered st ev.office then
    let r := insertSC (st.changes ev.office) ev
    .ok (updateChanges st ev.office r.1, r.2)
  else
    .error (400, unknownOfficeMsg ev.office)

/-- The store after a `POST /ingest/state_change`: an error response leaves the
store untouched (the transaction is rolled back when the connection closes). -/
def applyIngestSC (st : Store) (ev : EventSC) : Store :=
  match ingest_state_change st ev with
  | .ok r => r.1
  | .error _ => st

/-- One entry of the `POST /ingest/tick` body (the `TickSample` model). -/
structure TickSample where
  office : String
  state : St := St.unknown
  gateway : Bool
  mx : Bool
  ipsec : Bool
  ts : Int
deriving DecidableEq, Repr

/-- The sample rows produced by the tick loop, failing on the first
unregistered office name. -/
def tickRows (st : Store) : List TickSample → Except (Nat × String) (List SampleRow)
  | [] => .ok []
  | s :: rest =>
    if registered st s.office then
      (tickRows st rest).map
        (fun rs => { office := s.office, ts := s.ts, gateway := s.gateway,
                     mx := s.mx, ipsec := s.ipsec } :: rs)
    else
      .error (400, unknownOfficeMsg s.office)

/-- Translation of `ingest_tick` (`POST /ingest/tick`): the insert loop runs
inside one transaction, so an `HTTPException` leaves no row behind. -/
def ingest_tick (st : Store) (samples : List TickSample) :
    Except (Nat × String) (Store × Nat) :=
  (tickRows st samples).map
    (fun rs => ({ st with samples := st.samples ++ rs }, samples.length))

/-- The store after a `POST /ingest/tick`. -/
def applyIngestTick (st : Store) (samples : List TickSample) : Store :=
  match ingest_tick st samples with
  | .ok r => r.1
  | .error _ => st

/-- Ordering of state-change rows by timestamp, as in
`OVER (PARTITION BY office_id ORDER BY at_ts)`. -/
def rowLE (a b : SCRow) : Prop := a.at_ts ≤ b.at_ts

instance : DecidableRel rowLE := fun a b =>
  inferInstanceAs (Decidable (a.at_ts ≤ b.at_ts))

instance : IsTotal SCRow rowLE := ⟨fun a b => le_total a.at_ts b.at_ts⟩

instance : IsTrans SCRow rowLE := ⟨fun _ _ _ h h2 => le_trans h h2⟩

/-- Sort a per-office table by `at_ts` ascending. -/
def sortByAt (rows : List SCRow) : List SCRow := rows.insertionSort rowLE

/-- The `LEAD(at_ts, 1, :t_end)` pairing: each row with the next row's
timestamp, the last row paired with the window default `t_end`. -/
def withNext (t_end : Int) : List SCRow → List (SCRow × Int)
  | [] => []
  | [r] => [(r, t_end)]
  | r :: s :: rest => (r, s.at_ts) :: withNext t_end (s :: rest)

/-- One row of the `scw` common table expression. -/
structure Seg where
  state : St
  seg_start : Int
  seg_end : Int
deriving DecidableEq, Repr

/-- The `scw` rows built from an ordered row list: keep pairs with
`next_ts > t_start`, clamp `seg_start` up to `t_start` and `seg_end` down to
`t_end`. -/
def segsOf (t_start t_end : Int) (F : List SCRow) : List Seg :=
  ((withNext t_end F).filter (fun p => t_start < p.2)).map
    (fun p => { state := p.1.to_state,
                seg_start := if p.1.at_ts < t_start then t_start else p.1.at_ts,
                seg_end := if t_end < p.2 then t_end else p.2 })

/-- The full `sc` + `scw` pipeline on a raw per-office table: restrict to
`at_ts < t_end`, order by `at_ts`, pair with `LEAD`, filter and clamp. -/
def scwSegs (t_start t_end : Int) (rows : List SCRow) : List Seg :=
  segsOf t_start t_end ((sortByAt rows).filter (fun r => r.at_ts < t_end))

/-- One `SUM(CASE WHEN state=... THEN seg_end-seg_start ELSE 0 END)` column. -/
def sumState (s : St) (segs : List Seg) : Int :=
  (segs.map (fun g => if g.state = s then g.seg_end - g.seg_start else 0)).sum

/-- The grouped `sla` row for one office: present iff the office contributes at
least one `scw` row. -/
def slaOfficeCore (t_start t_end : Int) (rows : List SCRow) :
    Option (Int × Int × Int) :=
  let segs := scwSegs t_start t_end rows
  if segs.isEmpty then none
  else some (sumState St.up segs, sumState St.degraded segs, sumState St.down segs)

/-- The `latest` common table expression for one office: the row with the
largest `at_ts` among rows with `at_ts ≤ t_end`. -/
def latestRow (t_end : Int) (rows : List SCRow) : Option SCRow :=
  ((sortByAt rows).filter (fun r => r.at_ts ≤ t_end)).getLast?

/-- Ordering of sample rows by timestamp. -/
def sampleLE (a b : SampleRow) : Prop := a.ts ≤ b.ts

instance : DecidableRel sampleLE := fun a b =>
  inferInstanceAs (Decidable (a.ts ≤ b.ts))

instance : IsTotal SampleRow sampleLE := ⟨fun a b => le_total a.ts b.ts⟩

instance : IsTrans SampleRow sampleLE := ⟨fun _ _ _ h h2 => le_trans h h2⟩

/-- The `latest_samples` common table expression for one office. -/
def latestSample (t_end : Int) (samples : List SampleRow) (name : String) :
    Option SampleRow :=
  ((samples.filter (fun s => s.office == name)).insertionSort sampleLE).filter
    (fun s => s.ts ≤ t_end) |>.getLast?

/-- Round a ratio to six decimal places, as `round(x, 6)` does on the
non-tie values produced here. -/
def round6 (q : ℚ) : ℚ := ((round (q * 1000000) : ℤ) : ℚ) / 1000000

/-- One element of the response `sla` array. -/
structure SlaRow where
  office : String
  sec_up : Int
  sec_deg : Int
  sec_down : Int
  sec_total : Int
  current_state : Option St
  current_at : Option Int
  previous_state : Option St
  latest_gateway : Option Bool
  latest_mx : Option Bool
  latest_ipsec : Option Bool
  latest_sample_ts : Option Int
  uptime_strict : ℚ
  uptime_lenient : ℚ
deriving DecidableEq, Repr

/-- The response row for one registry office, `none` when the office has no
qualifying segment (it is then absent from the grouped `sla` rows). -/
def slaOffice (st : Store) (t_start t_end : Int) (o : OfficeRow) : Option SlaRow :=
  let rows := st.changes o.name
  (slaOfficeCore t_start t_end rows).map (fun sums =>
    let total := t_end - t_start
    let divisor : ℚ := ((max 1 total : Int) : ℚ)
    let lt := latestRow t_end rows
    let ls := latestSample t_end st.samples o.name
    { office := o.name,
      sec_up := sums.1, sec_deg := sums.2.1, sec_down := sums.2.2,
      sec_total := total,
      current_state := lt.map (·.to_state),
      current_at := lt.map (·.at_ts),
      previous_state := lt.map (·.from_state),
      latest_gateway := ls.map (·.gateway),
      latest_mx := ls.map (·.mx),
      latest_ipsec := ls.map (·.ipsec),
      latest_sample_ts := ls.map (·.ts),
      uptime_strict := round6 ((sums.1 : ℚ) / divisor),
      uptime_lenient := round6 (((sums.1 : ℚ) + (sums.2.1 : ℚ)) / divisor) })

/-- Translation of the query-parameter defaulting `x or d` on optional
integers: absent or zero falls back to the default. -/
def orDefault (v : Option Int) (d : Int) : Int :=
  match v with
  | none => d
  | some x => if x = 0 then d else x

/-- The `if office:` filter: an absent or empty office parameter selects every
office, otherwise the name must match. -/
def officeSelected (office : Option String) (n : String) : Bool :=
  match office with
  | none => true
  | some s => if s = "" then true else n == s

/-- Ordering of response rows by office name (`ORDER BY sla.office`). -/
def nameLE (a b : SlaRow) : Prop := a.office ≤ b.office

instance : DecidableRel nameLE := fun a b =>
  inferInstanceAs (Decidable (a.office ≤ b.office))

instance : IsTotal SlaRow nameLE := ⟨fun a b => le_total a.office b.office⟩

instance : IsTrans SlaRow nameLE := ⟨fun _ _ _ h h2 => le_trans h h2⟩

/-- The JSON body of `GET /sla`: the echoed window and the row array. -/
structure SlaResponse where
  t_start : Int
  t_end : Int
  rows : List SlaRow
deriving DecidableEq, Repr

/-- Translation of the `sla` endpoint: resolve the window, compute the grouped
rows for the selected offices, and order them by office name. -/
def sla (st : Store) (office : Option String) (t_startQ t_endQ : Option Int)
    (now : Int) : SlaResponse :=
  let t_end := orDefault t_endQ now
  let t_start := orDefault t_startQ (t_end - 86400)
  let rows := (st.offices.filter (fun o => officeSelected office o.name)).filterMap
    (slaOffice st t_start t_end)
  { t_start := t_start, t_end := t_end, rows := rows.insertionSort nameLE }

/-- The registry row of the basic-window scenario. -/
def hqOffice : OfficeRow :=
  { name := "HQ", gateway_ip := "1.1.1.1", mx_ip := "2.2.2.2",
    tunnel_probe_ip := "3.3.3.3" }

/-- The persisted history of the basic-window scenario: office HQ with state
changes `(at=0, down)`, `(at=30, degraded)`, `(at=90, up)` submitted through
the ingest surface. -/
def hqStore : Store :=
  let s0 := upsert_office emptyStore hqOffice
  let s1 := applyIngestSC s0
    { office := "HQ", state := St.down, sample_gateway := false,
      sample_mx := false, sample_ipsec := false, at_ts := 0 }
  let s2 := applyIngestSC s1
    { office := "HQ", state := St.degraded, sample_gateway := true,
      sample_mx := false, sample_ipsec := true, at_ts := 30 }
  applyIngestSC s2
    { office := "HQ", state := St.up, sample_gateway := true,
      sample_mx := true, sample_ipsec := true, at_ts := 90 }

/-- An office runtime with `retries_down=2`, `retries_up=1` and confirmed
state `up`. -/
def oC2 : Office :=
  { name := "HQ", gateway_ip := "10.0.0.1", mx_ip := "10.0.0.2",
    tunnel_probe_ip := "10.0.0.3", retries_down := 2, retries_up := 1,
    state := St.up }

/-- A one-office store with a single stored state change, for the witnesses. -/
def wStore : Store :=
  applyIngestSC (upsert_office emptyStore hqOffice)
    { office := "HQ", state := St.down, sample_gateway := false,
      sample_mx := false, sample_ipsec := false, at_ts := 100 }

/-- The chain property of a per-office table: ordered by `at_ts`, each row's
`to_state` is the next row's `from_state`. -/
def chainOk (rows : List SCRow) : Prop :=
  (sortByAt rows).Chain' (fun a b => a.to_state = b.from_state)

/-- Apply a sequence of `POST /ingest/state_change` submissions. -/
def applyAll (st : Store) (evs : List EventSC) : Store :=
  evs.foldl applyIngestSC st

/-- Fold of the raw insert over a per-office table. -/
def insertAll (t : List SCRow) (evs : List EventSC) : List SCRow :=
  evs.foldl (fun tt e => (insertSC tt e).1) t

/-- The store resulting from submitting `(at=100, down)` and then
`(at=50, up)` for HQ, in that order. -/
def c3Store : Store :=
  applyAll (upsert_office emptyStore hqOffice)
    [{ office := "HQ", state := St.down, sample_gateway := false,
       sample_mx := false, sample_ipsec := false, at_ts := 100 },
     { office := "HQ", state := St.up, sample_gateway := true,
       sample_mx := true, sample_ipsec := true, at_ts := 50 }]

/-- Strict ordering of state-change rows by timestamp. -/
def rowLT (a b : SCRow) : Prop := a.at_ts < b.at_ts

instance : DecidableRel rowLT := fun a b =>
  inferInstanceAs (Decidable (a.at_ts < b.at_ts))

instance : IsTrans SCRow rowLT := ⟨fun _ _ _ h h2 => lt_trans h h2⟩

/-- One entry of the `offices:` list in a configuration snapshot; the retry
thresholds may be absent. -/
structure OfficeCfg where
  name : String
  gateway_ip : String
  mx_ip : String
  tunnel_probe_ip : String
  retries_down : Option Nat := none
  retries_up : Option Nat := none
deriving DecidableEq, Repr

/-- The dataclass default returned by `_office_default` for `retries_down`. -/
def office_default_down : Nat := 2

/-- The dataclass default returned by `_office_default` for `retries_up`. -/
def office_default_up : Nat := 1

/-- Translation of `hash_office_record`: the stable content hash over the six
identity fields.  The sha256 digest is modelled by its input serialization
(the `str(value)` plus separator accumulation), which determines digest
equality. -/
def hash_office_record (o : OfficeCfg) : String :=
  o.name ++ "|" ++ o.gateway_ip ++ "|" ++ o.mx_ip ++ "|" ++ o.tunnel_probe_ip
    ++ "|" ++ toString (o.retries_down.getD office_default_down) ++ "|"
    ++ toString (o.retries_up.getD office_default_up) ++ "|"

/-- Lookup in an association list keyed by office name (a Python dict). -/
def alookup {β : Type} (l : List (String × β)) (k : String) : Option β :=
  (l.find? (fun p => p.1 == k)).map (fun p => p.2)

/-- Insert-or-replace in an association list, preserving insertion order the
way a Python dict does. -/
def aset {β : Type} (l : List (String × β)) (k : String) (v : β) :
    List (String × β) :=
  if l.any (fun p => p.1 == k) then
    l.map (fun p => if p.1 == k then (k, v) else p)
  else l ++ [(k, v)]

/-- The desired map `\x7bo["name"]: o for o in offices\x7d` built from the
snapshot list, later entries overriding earlier ones. -/
def desiredMap (cfgs : List OfficeCfg) : List (String × OfficeCfg) :=
  cfgs.foldl (fun acc o => aset acc o.name o) []

/-- The in-memory `OfficeManager`: live office runtimes, their probe tasks
(modelled by task identifiers), the recorded configuration hashes, and a
source of fresh task identifiers. -/
structure OfficeManager where
  offices : List (String × Office)
  tasks : List (String × Nat)
  hashes : List (String × String)
  next_task : Nat
deriving DecidableEq, Repr

/-- The body the reconciler posts to `/offices`. -/
structure UpsertPayload where
  name : String
  gateway_ip : String
  mx_ip : String
  tunnel_probe_ip : String
  retries_down : Nat
  retries_up : Nat
deriving DecidableEq, Repr

/-- The `/offices` payload assembled from an office runtime. -/
def upsertOf (o : Office) : UpsertPayload :=
  { name := o.name, gateway_ip := o.gateway_ip, mx_ip := o.mx_ip,
    tunnel_probe_ip := o.tunnel_probe_ip, retries_down := o.retries_down,
    retries_up := o.retries_up }

/-- Translation of `Office(**rec)`: a brand-new runtime for a desired record, with state
`unknown`, zeroed streaks and `last_change` set at creation time. -/
def newOffice (rec : OfficeCfg) (now : Int) : Office :=
  { name := rec.name, gateway_ip := rec.gateway_ip, mx_ip := rec.mx_ip,
    tunnel_probe_ip := rec.tunnel_probe_ip,
    retries_down := rec.retries_down.getD office_default_down,
    retries_up := rec.retries_up.getD office_default_up,
    state := St.unknown, fail_streak := 0, ok_streak := 0,
    last_change := now, last_sample := none }

/-- The in-place configuration update of the changed-hash branch: only the IP
fields and the retry thresholds of the existing runtime are written. -/
def updateOfficeCfg (o : Office) (rec : OfficeCfg) : Office :=
  { o with gateway_ip := rec.gateway_ip, mx_ip := rec.mx_ip,
           tunnel_probe_ip := rec.tunnel_probe_ip,
           retries_down := rec.retries_down.getD office_default_down,
           retries_up := rec.retries_up.getD office_default_up }

/-- The additions/updates loop body of `OfficeManager.reconcile` for one
desired entry. -/
def reconcileStep (now : Int) (acc : OfficeManager × List UpsertPayload)
    (e : String × OfficeCfg) : OfficeManager × List UpsertPayload :=
  let m := acc.1
  let h := hash_office_record e.2
  match alookup m.offices e.1 with
  | none =>
    let o := newOffice e.2 now
    ({ offices := aset m.offices e.1 o,
       tasks := aset m.tasks e.1 m.next_task,
       hashes := aset m.hashes e.1 h,
       next_task := m.next_task + 1 }, acc.2 ++ [upsertOf o])
  | some o =>
    if alookup m.hashes e.1 = some h then acc
    else
      let o2 := updateOfficeCfg o e.2
      ({ m with offices := aset m.offices e.1 o2,
                hashes := aset m.hashes e.1 h }, acc.2 ++ [upsertOf o2])

/-- Translation of `OfficeManager.reconcile`: drop live offices absent from
the desired snapshot (cancelling their probe tasks), then add or update the
rest in snapshot order, collecting the `/offices` upserts that were posted. -/
def reconcile (m : OfficeManager) (cfgs : List OfficeCfg) (now : Int) :
    OfficeManager × List UpsertPayload :=
  let desired := desiredMap cfgs
  let names := desired.map (fun p => p.1)
  let m1 : OfficeManager :=
    { offices := m.offices.filter (fun p => names.contains p.1),
      tasks := m.tasks.filter (fun p => names.contains p.1),
      hashes := m.hashes.filter (fun p => names.contains p.1),
      next_task := m.next_task }
  desired.foldl (reconcileStep now) (m1, [])

/-- A live manager with office HQ for the witness: nonzero streaks, a
recorded state and sample, a running task, and no recorded hash. -/
def mW : OfficeManager :=
  { offices := [("HQ",
      { name := "HQ", gateway_ip := "1.1.1.1", mx_ip := "2.2.2.2",
        tunnel_probe_ip := "3.3.3.3", retries_down := 3, retries_up := 2,
        state := St.up, fail_streak := 1, ok_streak := 4, last_change := 777,
        last_sample := some { gateway := true, mx := true, ipsec := true,
                              ts := 776 } })],
    tasks := [("HQ", 5)], hashes := [], next_task := 6 }

/-- The updated configuration record for the witness. -/
def recW : OfficeCfg :=
  { name := "HQ", gateway_ip := "1.1.1.1", mx_ip := "2.2.2.2",
    tunnel_probe_ip := "3.3.3.3", retries_down := some 5, retries_up := some 4 }

/-- The HQ runtime of the witness manager. -/
def oW : Office :=
  { name := "HQ", gateway_ip := "1.1.1.1", mx_ip := "2.2.2.2",
    tunnel_probe_ip := "3.3.3.3", retries_down := 3, retries_up := 2,
    state := St.up, fail_streak := 1, ok_streak := 4, last_change := 777,
    last_sample := some { gateway := true, mx := true, ipsec := true,
                          ts := 776 } }

/-- The summed length of a segment list. -/
def totalLen (segs : List Seg) : Int :=
  (segs.map (fun g => g.seg_end - g.seg_start)).sum

/-- A one-office store with a single stored state change, for the SLA window
witnesses. -/
def storeW : Store :=
  { offices := [{ name := "A", gateway_ip := "g", mx_ip := "m",
                  tunnel_probe_ip := "t" }],
    changes := fun k =>
      if k = "A" then
        [{ at_ts := 0, from_state := St.unknown, to_state := St.up,
           sample_gateway := true, sample_mx := true, sample_ipsec := true }]
      else [],
    samples := [] }

/-- The SLA row returned for `storeW` over the window `[10, 20]`. -/
def rowW : SlaRow :=
  { office := "A", sec_up := 10, sec_deg := 0, sec_down := 0, sec_total := 10,
    current_state := some St.up, current_at := some 0,
    previous_state := some St.unknown, latest_gateway := none,
    latest_mx := none, latest_ipsec := none, latest_sample_ts := none,
    uptime_strict := 1, uptime_lenient := 1 }

/-! ## Theorems -/

/-- The unknown-office detail string starts with the literal
`Unknown office`. -/
theorem unknownOfficeMsg_eq (n : String) :
    unknownOfficeMsg n = "Unknown office" ++ (" " ++ squote ++ n ++ squote) := by
  simp only [unknownOfficeMsg, String.append_assoc]
  rfl

/-- The state-change rows actually persisted for HQ in the scenario store. -/
theorem hq_changes : hqStore.changes "HQ" =
    [{ at_ts := 0, from_state := St.unknown, to_state := St.down,
       sample_gateway := false, sample_mx := false, sample_ipsec := false },
     { at_ts := 30, from_state := St.down, to_state := St.degraded,
       sample_gateway := true, sample_mx := false, sample_ipsec := true },
     { at_ts := 90, from_state := St.degraded, to_state := St.up,
       sample_gateway := true, sample_mx := true, sample_ipsec := true }] := by
  decide

/-- The registry of the scenario store. -/
theorem hq_offices : hqStore.offices = [hqOffice] := by decide

/-- The scenario store holds no raw samples. -/
theorem hq_samples : hqStore.samples = [] := by decide

/-- C1: over the history `(at=0, down)`, `(at=30, degraded)`, `(at=90, up)` for
office HQ, the SLA query with `t_start=10` and `t_end=150` returns
`sec_down=20`, `sec_deg=60`, `sec_up=60`, `sec_total=140`, `current_state=up`,
`previous_state=degraded`, `uptime_strict=0.428571` and
`uptime_lenient=0.857143`. -/
theorem C1_basic_window :
    sla hqStore (some "HQ") (some 10) (some 150) 1700000000 =
      { t_start := 10, t_end := 150,
        rows := [{ office := "HQ", sec_up := 60, sec_deg := 60, sec_down := 20,
                   sec_total := 140, current_state := some St.up,
                   current_at := some 90, previous_state := some St.degraded,
                   latest_gateway := none, latest_mx := none,
                   latest_ipsec := none, latest_sample_ts := none,
                   uptime_strict := 428571 / 1000000,
                   uptime_lenient := 857143 / 1000000 }] } := by
  simp only [sla, orDefault, hq_offices, hqOffice, officeSelected]
  norm_num [slaOffice, slaOfficeCore, scwSegs, segsOf, sortByAt, withNext,
    sumState, latestRow, latestSample, hq_changes, hq_samples,
    List.insertionSort, List.orderedInsert, List.filter, List.filterMap]
  simp [round6, round_eq, hqStore, hqOffice, applyIngestSC, ingest_state_change,
    insertSC, insertedRow, updateChanges, registered, upsert_office, emptyStore,
    derivedFrom, mostRecentBefore]
  norm_num [Int.floor_eq_iff]

/-- C2: from confirmed `up` with `retries_down=2, retries_up=1`, the sequence
`up, down, up, down, down, up` commits exactly `up → down` on the fifth sample
and `down → up` on the sixth; in general a deterioration commits exactly when
the fail streak reaches `retries_down`, any other differing classification
commits exactly when the ok streak reaches `retries_up`, and a commit resets
both streaks to zero. -/
theorem C2_debounce :
    debounceCommits oC2 1 [St.up, St.down, St.up, St.down, St.down, St.up] =
      [(5, St.up, St.down), (6, St.down, St.up)] ∧
    (∀ (o : Office) (n : St) (now : Int),
      (isBad n && isOkish o.state) = true →
      ((debounceStep o n now).2 = true ↔ o.retries_down ≤ o.fail_streak + 1)) ∧
    (∀ (o : Office) (n : St) (now : Int),
      n ≠ o.state → (isBad n && isOkish o.state) = false →
      ((debounceStep o n now).2 = true ↔ o.retries_up ≤ o.ok_streak + 1)) ∧
    (∀ (o : Office) (n : St) (now : Int),
      (debounceStep o n now).2 = true →
      (debounceStep o n now).1.fail_streak = 0 ∧
      (debounceStep o n now).1.ok_streak = 0 ∧
      (debounceStep o n now).1.state = n) := by
  refine ⟨by decide, ?_, ?_, ?_⟩
  · intro o n now h
    have hne : ¬ n = o.state := by
      intro he
      rw [he] at h
      cases hS : o.state <;> rw [hS] at h <;> simp [isBad, isOkish] at h
    by_cases hc : o.retries_down ≤ o.fail_streak + 1 <;>
      simp [debounceStep, hne, h, hc]
  · intro o n now hne h
    by_cases hc : o.retries_up ≤ o.ok_streak + 1 <;>
      simp [debounceStep, hne, h, hc]
  · intro o n now h
    by_cases h1 : n = o.state
    · simp [debounceStep, h1] at h
    · by_cases h2 : (isBad n && isOkish o.state) = true
      · by_cases hc : o.retries_down ≤ o.fail_streak + 1
        · simp [debounceStep, h1, h2, hc]
        · simp [debounceStep, h1, h2, hc] at h
      · by_cases hc : o.retries_up ≤ o.ok_streak + 1
        · simp [debounceStep, h1, h2, hc]
        · simp [debounceStep, h1, h2, hc] at h

/-- Witness for C2 at concrete inputs. -/
theorem C2_debounce_witness :
    ((isBad St.down && isOkish oC2.state) = true ∧
      ((debounceStep oC2 St.down 0).2 = true ↔
        oC2.retries_down ≤ oC2.fail_streak + 1)) ∧
    ((debounceStep { oC2 with fail_streak := 1 } St.down 7).2 = true →
      (debounceStep { oC2 with fail_streak := 1 } St.down 7).1.fail_streak = 0 ∧
      (debounceStep { oC2 with fail_streak := 1 } St.down 7).1.ok_streak = 0 ∧
      (debounceStep { oC2 with fail_streak := 1 } St.down 7).1.state = St.down) :=
  ⟨⟨by decide, C2_debounce.2.1 oC2 St.down 0 (by decide)⟩,
    C2_debounce.2.2.2 { oC2 with fail_streak := 1 } St.down 7⟩

/-- Counterexample to C10: with `t_start` omitted and `t_end = 86400`, the
query computes over the window `[0, 86400]`, whose start is the epoch. -/
theorem C10_cex_epoch_window :
    (sla emptyStore none none (some 86400) 1700000000).t_start = 0 ∧
    (sla emptyStore none none (some 86400) 1700000000).t_end = 86400 := by
  decide

/-- C10 (amended): a caller-supplied `t_end = 0` is replaced by the current
time and a caller-supplied `t_start = 0` by `t_end − 86400`, exactly as if
omitted; an empty-string office filter behaves like an absent one; the
effective `t_end` is never the epoch when the current time is nonzero (the
effective `t_start`, however, can be the epoch, as the counterexample shows).
-/
theorem C10_param_defaults :
    (∀ (st : Store) (office : Option String) (tq : Option Int) (now : Int),
      sla st office tq (some 0) now = sla st office tq none now) ∧
    (∀ (st : Store) (office : Option String) (te : Option Int) (now : Int),
      sla st office (some 0) te now = sla st office none te now) ∧
    (∀ (st : Store) (tq te : Option Int) (now : Int),
      sla st (some "") tq te now = sla st none tq te now) ∧
    (∀ (st : Store) (office : Option String) (tq te : Option Int) (now : Int),
      now ≠ 0 → (sla st office tq te now).t_end ≠ 0) := by
  refine ⟨?_, ?_, ?_, ?_⟩
  · intro st office tq now
    simp [sla, orDefault]
  · intro st office te now
    simp [sla, orDefault]
  · intro st tq te now
    simp [sla, officeSelected]
  · intro st office tq te now hnow
    cases te with
    | none => simp [sla, orDefault, hnow]
    | some x =>
      by_cases hx : x = 0
      · simp [sla, orDefault, hx, hnow]
      · simp [sla, orDefault, hx]

/-- Witness for C10 at concrete inputs. -/
theorem C10_param_defaults_witness :
    (5 : Int) ≠ 0 ∧ (sla emptyStore none none none 5).t_end ≠ 0 :=
  ⟨by decide, C10_param_defaults.2.2.2 emptyStore none none none 5 (by decide)⟩

/-- C5: submitting a state change for an `(office, at)` pair that already has
a stored row succeeds, reports `inserted = 0`, and leaves the store unchanged,
whatever state and sample the submission carries. -/
theorem C5_duplicate_noop (st : Store) (ev : EventSC)
    (hval : ev.state ≠ St.unknown)
    (hreg : registered st ev.office = true)
    (hdup : ∃ r ∈ st.changes ev.office, r.at_ts = ev.at_ts) :
    ingest_state_change st ev = .ok (st, 0) := by
  have hany : (st.changes ev.office).any (fun r => r.at_ts == ev.at_ts) = true := by
    rcases hdup with ⟨r, hr, hat⟩
    exact List.any_eq_true.mpr ⟨r, hr, by simp [hat]⟩
  have hch : updateChanges st ev.office (st.changes ev.office) = st := by
    have : (fun k => if k = ev.office then st.changes ev.office else st.changes k)
        = st.changes := by
      funext k
      split
      · next h => rw [h]
      · rfl
    simp [updateChanges, this]
  simp [ingest_state_change, hval, hreg, insertSC, hany, hch]

/-- Witness for C5 at a concrete duplicate submission. -/
theorem C5_duplicate_noop_witness :
    ingest_state_change wStore
      { office := "HQ", state := St.degraded, sample_gateway := true,
        sample_mx := true, sample_ipsec := true, at_ts := 100 } =
      .ok (wStore, 0) :=
  C5_duplicate_noop wStore
    { office := "HQ", state := St.degraded, sample_gateway := true,
      sample_mx := true, sample_ipsec := true, at_ts := 100 }
    (by decide) (by decide) (by decide)

/-- C8: a state change for an unregistered office fails with a 400 whose
detail starts with `Unknown office` and persists nothing; a tick batch with
any unregistered name fails the same way and persists no sample row, even for
entries preceding the unknown name. -/
theorem C8_unknown_office (st : Store) (ev : EventSC) (samples : List TickSample)
    (hval : ev.state ≠ St.unknown)
    (hev : registered st ev.office = false)
    (hs : ∃ s ∈ samples, registered st s.office = false) :
    (∃ post, ingest_state_change st ev = .error (400, "Unknown office" ++ post)) ∧
    applyIngestSC st ev = st ∧
    (∃ post, ingest_tick st samples = .error (400, "Unknown office" ++ post)) ∧
    applyIngestTick st samples = st := by
  have h1 : ingest_state_change st ev = .error (400, unknownOfficeMsg ev.office) := by
    simp [ingest_state_change, hval, hev]
  have h2 : ∃ nm, registered st nm = false ∧
      tickRows st samples = .error (400, unknownOfficeMsg nm) := by
    clear h1
    induction samples with
    | nil => rcases hs with ⟨s, hmem, _⟩; cases hmem
    | cons s rest ih =>
      by_cases hr : registered st s.office = true
      · have hrest : ∃ t ∈ rest, registered st t.office = false := by
          rcases hs with ⟨t, hmem, hf⟩
          rcases List.mem_cons.mp hmem with he | hm
          · rw [he, hr] at hf; cases hf
          · exact ⟨t, hm, hf⟩
        rcases ih hrest with ⟨nm, hnm, heq⟩
        refine ⟨nm, hnm, ?_⟩
        have hu : tickRows st (s :: rest) = (tickRows st rest).map
            (fun rs => { office := s.office, ts := s.ts, gateway := s.gateway,
                         mx := s.mx, ipsec := s.ipsec } :: rs) := by
          simp [tickRows, hr]
        rw [hu, heq]
        rfl
      · have hr' : registered st s.office = false := by
          cases hb : registered st s.office
          · rfl
          · exact absurd hb hr
        exact ⟨s.office, hr', by simp [tickRows, hr']⟩
  rcases h2 with ⟨nm, _, htick⟩
  refine ⟨⟨" " ++ squote ++ ev.office ++ squote, ?_⟩, ?_,
    ⟨" " ++ squote ++ nm ++ squote, ?_⟩, ?_⟩
  · rw [h1, ← unknownOfficeMsg_eq]
  · simp [applyIngestSC, h1]
  · simp [ingest_tick, htick, Except.map, ← unknownOfficeMsg_eq]
  · simp [applyIngestTick, ingest_tick, htick, Except.map]

/-- Witness for C8 at a concrete unregistered submission. -/
theorem C8_unknown_office_witness :
    (∃ post, ingest_state_change wStore
      { office := "Branch", state := St.down, sample_gateway := false,
        sample_mx := false, sample_ipsec := false, at_ts := 7 } =
      .error (400, "Unknown office" ++ post)) ∧
    applyIngestSC wStore
      { office := "Branch", state := St.down, sample_gateway := false,
        sample_mx := false, sample_ipsec := false, at_ts := 7 } = wStore ∧
    (∃ post, ingest_tick wStore
      [{ office := "HQ", gateway := true, mx := true, ipsec := true, ts := 1 },
       { office := "Branch", gateway := true, mx := true, ipsec := true, ts := 2 }] =
      .error (400, "Unknown office" ++ post)) ∧
    applyIngestTick wStore
      [{ office := "HQ", gateway := true, mx := true, ipsec := true, ts := 1 },
       { office := "Branch", gateway := true, mx := true, ipsec := true, ts := 2 }] =
      wStore :=
  C8_unknown_office wStore
    { office := "Branch", state := St.down, sample_gateway := false,
      sample_mx := false, sample_ipsec := false, at_ts := 7 }
    [{ office := "HQ", gateway := true, mx := true, ipsec := true, ts := 1 },
     { office := "Branch", gateway := true, mx := true, ipsec := true, ts := 2 }]
    (by decide) (by decide)
    ⟨{ office := "Branch", gateway := true, mx := true, ipsec := true, ts := 2 },
      by decide, by decide⟩

/-- Results of `mostRecentBefore`: the found row is a table row with a
strictly smaller timestamp. -/
theorem mrb_mem {t : Int} :
    ∀ (rows : List SCRow) (b : SCRow), mostRecentBefore rows t = some b →
      b ∈ rows ∧ b.at_ts < t := by
  intro rows
  induction rows with
  | nil => intro b h; simp [mostRecentBefore] at h
  | cons r rest ih =>
    intro b h
    cases hm : mostRecentBefore rest t with
    | none =>
      simp only [mostRecentBefore, hm] at h
      split_ifs at h with hr
      obtain rfl : r = b := Option.some.inj h
      exact ⟨List.mem_cons_self _ _, hr⟩
    | some b0 =>
      simp only [mostRecentBefore, hm] at h
      split_ifs at h with hc
      · obtain rfl : r = b := Option.some.inj h
        exact ⟨List.mem_cons_self _ _, hc.1⟩
      · obtain rfl : b0 = b := Option.some.inj h
        rcases ih b0 hm with ⟨h1, h2⟩
        exact ⟨List.mem_cons_of_mem _ h1, h2⟩

/-- When `mostRecentBefore` finds no row, no row has a strictly smaller
timestamp. -/
theorem mrb_none {t : Int} :
    ∀ (rows : List SCRow), mostRecentBefore rows t = none →
      ∀ x ∈ rows, ¬ x.at_ts < t := by
  intro rows
  induction rows with
  | nil => intro _ x hx; cases hx
  | cons r rest ih =>
    intro h x hx
    cases hm : mostRecentBefore rest t with
    | none =>
      simp only [mostRecentBefore, hm] at h
      split_ifs at h with hr
      rcases List.mem_cons.mp hx with he | hm2
      · rw [he]; exact hr
      · exact ih hm x hm2
    | some b0 =>
      simp only [mostRecentBefore, hm] at h
      split_ifs at h

/-- The row found by `mostRecentBefore` has the largest timestamp among rows
with a strictly smaller timestamp. -/
theorem mrb_max {t : Int} :
    ∀ (rows : List SCRow) (b : SCRow), mostRecentBefore rows t = some b →
      ∀ x ∈ rows, x.at_ts < t → x.at_ts ≤ b.at_ts := by
  intro rows
  induction rows with
  | nil => intro b _ x hx; cases hx
  | cons r rest ih =>
    intro b h x hx hxt
    cases hm : mostRecentBefore rest t with
    | none =>
      simp only [mostRecentBefore, hm] at h
      split_ifs at h with hr
      obtain rfl : r = b := Option.some.inj h
      rcases List.mem_cons.mp hx with he | hm2
      · rw [he]
      · exact absurd hxt (mrb_none rest hm x hm2)
    | some b0 =>
      simp only [mostRecentBefore, hm] at h
      split_ifs at h with hc
      · obtain rfl : r = b := Option.some.inj h
        rcases List.mem_cons.mp hx with he | hm2
        · rw [he]
        · exact le_of_lt (lt_of_le_of_lt (ih b0 hm x hm2 hxt) hc.2)
      · obtain rfl : b0 = b := Option.some.inj h
        rcases List.mem_cons.mp hx with he | hm2
        · subst he
          rcases not_and_or.mp hc with hc1 | hc2
          · exact absurd hxt hc1
          · exact le_of_not_lt hc2
        · exact ih b0 hm x hm2 hxt

/-- C4: ingesting a fresh state change appends one row whose `from_state` is
the `to_state` of the most recent stored row with a strictly smaller
timestamp, or `unknown` when no such row exists; the caller supplies no
`from_state`. -/
theorem C4_derived_from_state (st : Store) (ev : EventSC)
    (hval : ev.state ≠ St.unknown)
    (hreg : registered st ev.office = true)
    (hdist : (st.changes ev.office).Pairwise (fun a b => a.at_ts ≠ b.at_ts))
    (hfresh : ∀ r ∈ st.changes ev.office, r.at_ts ≠ ev.at_ts) :
    ∃ st2, ingest_state_change st ev = .ok (st2, 1) ∧
      ∃ row, st2.changes ev.office = st.changes ev.office ++ [row] ∧
        row.at_ts = ev.at_ts ∧ row.to_state = ev.state ∧
        ((∀ r ∈ st.changes ev.office, ¬ r.at_ts < ev.at_ts) →
          row.from_state = St.unknown) ∧
        (∀ b ∈ st.changes ev.office, b.at_ts < ev.at_ts →
          (∀ r ∈ st.changes ev.office, r.at_ts < ev.at_ts → r.at_ts ≤ b.at_ts) →
          row.from_state = b.to_state) := by
  have hany : (st.changes ev.office).any (fun r => r.at_ts == ev.at_ts) = false := by
    rw [List.any_eq_false]
    intro r hr
    simp [hfresh r hr]
  refine ⟨updateChanges st ev.office
      (st.changes ev.office ++ [insertedRow (st.changes ev.office) ev]),
    by simp [ingest_state_change, hval, hreg, insertSC, hany],
    insertedRow (st.changes ev.office) ev,
    by simp [updateChanges], rfl, rfl, ?_, ?_⟩
  · intro hnone
    cases hm : mostRecentBefore (st.changes ev.office) ev.at_ts with
    | none => simp [insertedRow, derivedFrom, hm]
    | some b0 =>
      rcases mrb_mem _ b0 hm with ⟨hbm, hbt⟩
      exact absurd hbt (hnone b0 hbm)
  · intro b hbm hbt hmax
    cases hm : mostRecentBefore (st.changes ev.office) ev.at_ts with
    | none => exact absurd hbt (mrb_none _ hm b hbm)
    | some b0 =>
      rcases mrb_mem _ b0 hm with ⟨hb0m, hb0t⟩
      have h1 : b0.at_ts ≤ b.at_ts := hmax b0 hb0m hb0t
      have h2 : b.at_ts ≤ b0.at_ts := mrb_max _ b0 hm b hbm hbt
      have heq : b = b0 := by
        by_contra hne
        exact (List.Pairwise.forall (fun x y hxy => (Ne.symm hxy)) hdist
          hbm hb0m hne) (le_antisymm h2 h1)
      rw [heq]
      simp [insertedRow, derivedFrom, hm]

/-- Witness for C4 at a concrete fresh submission. -/
theorem C4_derived_from_state_witness :
    ∃ st2, ingest_state_change wStore
      { office := "HQ", state := St.up, sample_gateway := true,
        sample_mx := true, sample_ipsec := true, at_ts := 200 } = .ok (st2, 1) ∧
      ∃ row, st2.changes "HQ" = wStore.changes "HQ" ++ [row] ∧
        row.at_ts = 200 ∧ row.to_state = St.up ∧
        ((∀ r ∈ wStore.changes "HQ", ¬ r.at_ts < 200) →
          row.from_state = St.unknown) ∧
        (∀ b ∈ wStore.changes "HQ", b.at_ts < 200 →
          (∀ r ∈ wStore.changes "HQ", r.at_ts < 200 → r.at_ts ≤ b.at_ts) →
          row.from_state = b.to_state) :=
  C4_derived_from_state wStore
    { office := "HQ", state := St.up, sample_gateway := true,
      sample_mx := true, sample_ipsec := true, at_ts := 200 }
    (by decide) (by decide) (by decide) (by decide)

/-- Counterexample to C3: submitting `(at=100, down)` then `(at=50, up)`
through the ingest surface leaves a table whose rows, ordered by `at_ts`, are
`(50, unknown → up)` and `(100, unknown → down)`: the first row's `to_state`
(`up`) differs from the second row's `from_state` (`unknown`), because the
ingest path derives `from_state` only at insert time and never rewrites the
rows that follow a late arrival. -/
theorem C3_cex_out_of_order : ¬ chainOk (c3Store.changes "HQ") := by
  have h : c3Store.changes "HQ" =
      [{ at_ts := 100, from_state := St.unknown, to_state := St.down,
         sample_gateway := false, sample_mx := false, sample_ipsec := false },
       { at_ts := 50, from_state := St.unknown, to_state := St.up,
         sample_gateway := true, sample_mx := true, sample_ipsec := true }] := by
    decide
  have hs : sortByAt (c3Store.changes "HQ") =
      [{ at_ts := 50, from_state := St.unknown, to_state := St.up,
         sample_gateway := true, sample_mx := true, sample_ipsec := true },
       { at_ts := 100, from_state := St.unknown, to_state := St.down,
         sample_gateway := false, sample_mx := false, sample_ipsec := false }] := by
    rw [h]
    decide
  unfold chainOk
  rw [hs]
  simp [List.chain'_cons]

/-- A value produced by `getLast?` belongs to the list. -/
theorem getLast?_mem {α : Type} {l : List α} {x : α}
    (h : l.getLast? = some x) : x ∈ l := by
  rcases List.mem_getLast?_eq_getLast (Option.mem_def.mpr h) with ⟨hne, heq⟩
  rw [heq]
  exact List.getLast_mem hne

/-- On a table sorted strictly by timestamp whose rows all lie strictly below
`a`, the most recent row before `a` is the last row. -/
theorem mrb_last (a : Int) :
    ∀ (t : List SCRow), t.Chain' rowLT → (∀ r ∈ t, r.at_ts < a) →
      mostRecentBefore t a = t.getLast? := by
  intro t
  induction t with
  | nil => intro _ _; rfl
  | cons r rest ih =>
    intro hch hb
    cases rest with
    | nil =>
      simp [mostRecentBefore, hb r (List.mem_cons_self _ _)]
    | cons s rest2 =>
      have htail : mostRecentBefore (s :: rest2) a = (s :: rest2).getLast? :=
        ih hch.tail (fun x hx => hb x (List.mem_cons_of_mem _ hx))
      have hne : s :: rest2 ≠ [] := List.cons_ne_nil _ _
      obtain ⟨lastEl, hl, hlm⟩ :
          ∃ x, (s :: rest2).getLast? = some x ∧ x ∈ s :: rest2 :=
        ⟨(s :: rest2).getLast hne, List.getLast?_eq_getLast_of_ne_nil hne,
          List.getLast_mem hne⟩
      have hpt : (r :: s :: rest2).Pairwise rowLT :=
        List.chain'_iff_pairwise.mp hch
      have hrl : r.at_ts < lastEl.at_ts := (List.pairwise_cons.mp hpt).1 lastEl hlm
      have hcond : ¬ (r.at_ts < a ∧ lastEl.at_ts < r.at_ts) := by
        intro hcon
        exact absurd hrl (not_lt_of_lt hcon.2)
      have hstep : mostRecentBefore (r :: s :: rest2) a =
          if r.at_ts < a ∧ lastEl.at_ts < r.at_ts then some r else some lastEl := by
        rw [mostRecentBefore, htail.trans hl]
      rw [hstep, if_neg hcond, List.getLast?_cons_cons, hl]

/-- When a run of inserts arrives in strictly increasing `at_ts` order on a
per-office table whose rows are strictly increasing and chained, the resulting
table is again strictly increasing and chained. -/
theorem insertAll_props :
    ∀ (evs : List EventSC) (t : List SCRow),
      t.Chain' rowLT →
      t.Chain' (fun a b => a.to_state = b.from_state) →
      (∀ r ∈ t, ∀ e ∈ evs, r.at_ts < e.at_ts) →
      evs.Pairwise (fun a b => a.at_ts < b.at_ts) →
      (insertAll t evs).Chain' rowLT ∧
      (insertAll t evs).Chain' (fun a b => a.to_state = b.from_state) := by
  intro evs
  induction evs with
  | nil => intro t h1 h2 _ _; exact ⟨h1, h2⟩
  | cons e rest ih =>
    intro t h1 h2 hbound hpw
    have hblt : ∀ r ∈ t, r.at_ts < e.at_ts := fun r hr =>
      hbound r hr e (List.mem_cons_self _ _)
    have hany : (t.any (fun r => r.at_ts == e.at_ts)) = false := by
      rw [List.any_eq_false]
      intro r hr
      simp [Int.ne_of_lt (hblt r hr)]
    have hmrb : mostRecentBefore t e.at_ts = t.getLast? := mrb_last e.at_ts t h1 hblt
    have hstep : (insertSC t e).1 = t ++ [insertedRow t e] := by
      simp [insertSC, hany]
    have hlt2 : (t ++ [insertedRow t e]).Chain' rowLT := by
      rw [List.chain'_append]
      refine ⟨h1, List.chain'_singleton _, ?_⟩
      intro x hx y hy
      simp only [List.head?_cons, Option.mem_def, Option.some.injEq] at hy
      rw [← hy]
      exact hblt x (getLast?_mem (Option.mem_def.mp hx))
    have hch2 : (t ++ [insertedRow t e]).Chain'
        (fun a b => a.to_state = b.from_state) := by
      rw [List.chain'_append]
      refine ⟨h2, List.chain'_singleton _, ?_⟩
      intro x hx y hy
      simp only [List.head?_cons, Option.mem_def, Option.some.injEq] at hy
      rw [← hy]
      have hx2 : t.getLast? = some x := Option.mem_def.mp hx
      simp [insertedRow, derivedFrom, hmrb, hx2]
    have hbound2 : ∀ r ∈ t ++ [insertedRow t e], ∀ e2 ∈ rest,
        r.at_ts < e2.at_ts := by
      intro r hr e2 he2
      rcases List.mem_append.mp hr with hrt | hre
      · exact hbound r hrt e2 (List.mem_cons_of_mem _ he2)
      · have hr2 : r = insertedRow t e := by simpa using hre
        rw [hr2]
        exact (List.pairwise_cons.mp hpw).1 e2 he2
    have hres := ih (t ++ [insertedRow t e]) hlt2 hch2 hbound2
      (List.pairwise_cons.mp hpw).2
    simpa [insertAll, hstep] using hres

/-- The state-change ingest endpoint never touches the registry. -/
theorem applyIngestSC_offices (st : Store) (ev : EventSC) :
    (applyIngestSC st ev).offices = st.offices := by
  unfold applyIngestSC ingest_state_change
  split_ifs <;> simp [updateChanges]

/-- A successful state-change ingest replaces exactly the submitting office's
table with the result of the raw insert. -/
theorem applyIngestSC_changes (st : Store) (ev : EventSC)
    (hval : ev.state ≠ St.unknown) (hreg : registered st ev.office = true) :
    applyIngestSC st ev =
      updateChanges st ev.office (insertSC (st.changes ev.office) ev).1 := by
  unfold applyIngestSC ingest_state_change
  simp [hval, hreg]

/-- A rejected state-change ingest leaves the store untouched. -/
theorem applyIngestSC_reject (st : Store) (ev : EventSC)
    (hreg : registered st ev.office = false) :
    applyIngestSC st ev = st := by
  unfold applyIngestSC ingest_state_change
  split_ifs with h1 h2
  · rfl
  · rw [hreg] at h2; cases h2
  · rfl

/-- Submitting a run of valid state changes for one registered office folds
the raw insert over that office's table. -/
theorem applyAll_changes (name : String) :
    ∀ (evs : List EventSC) (st : Store), registered st name = true →
      (∀ e ∈ evs, e.office = name) → (∀ e ∈ evs, e.state ≠ St.unknown) →
      (applyAll st evs).changes name = insertAll (st.changes name) evs := by
  intro evs
  induction evs with
  | nil => intro st _ _ _; rfl
  | cons e rest ih =>
    intro st hreg hof hval
    have hoe : e.office = name := hof e (List.mem_cons_self _ _)
    have h1 : applyIngestSC st e =
        updateChanges st e.office (insertSC (st.changes e.office) e).1 :=
      applyIngestSC_changes st e (hval e (List.mem_cons_self _ _)) (hoe ▸ hreg)
    have h2 : (applyIngestSC st e).changes name =
        (insertSC (st.changes name) e).1 := by
      rw [h1, hoe]
      simp [updateChanges]
    have h3 : registered (applyIngestSC st e) name = true := by
      unfold registered
      rw [applyIngestSC_offices]
      exact hreg
    have h4 := ih (applyIngestSC st e)
      h3 (fun x hx => hof x (List.mem_cons_of_mem _ hx))
      (fun x hx => hval x (List.mem_cons_of_mem _ hx))
    calc (applyAll st (e :: rest)).changes name
        = (applyAll (applyIngestSC st e) rest).changes name := rfl
      _ = insertAll ((applyIngestSC st e).changes name) rest := h4
      _ = insertAll (insertSC (st.changes name) e).1 rest := by rw [h2]
      _ = insertAll (st.changes name) (e :: rest) := rfl

/-- C3 (amended): when the state changes of an office are submitted to the
ingest surface in strictly increasing `at_ts` order, the stored rows ordered
by `at_ts` form a chain (each row's `to_state` is the next row's
`from_state`).  The counterexample shows the chain can break when submissions
arrive out of order, because `from_state` is derived only at insert time. -/
theorem C3_chain_in_order (name : String) (evs : List EventSC) (st0 : Store)
    (h0 : st0.changes name = [])
    (hof : ∀ e ∈ evs, e.office = name)
    (hval : ∀ e ∈ evs, e.state ≠ St.unknown)
    (hinc : evs.Pairwise (fun a b => a.at_ts < b.at_ts)) :
    chainOk ((applyAll st0 evs).changes name) := by
  cases hreg : registered st0 name with
  | true =>
    rw [applyAll_changes name evs st0 hreg hof hval, h0]
    rcases insertAll_props evs [] List.chain'_nil List.chain'_nil
      (by intro r hr; cases hr) hinc with ⟨hlt, hch⟩
    have hsorted : List.Sorted rowLE (insertAll [] evs) :=
      (List.chain'_iff_pairwise.mp hlt).imp (fun h => le_of_lt h)
    unfold chainOk sortByAt
    rw [List.Sorted.insertionSort_eq hsorted]
    exact hch
  | false =>
    have hall : applyAll st0 evs = st0 := by
      clear hinc h0
      induction evs with
      | nil => rfl
      | cons e rest ih2 =>
        have hoe : e.office = name := hof e (List.mem_cons_self _ _)
        have h1 : applyIngestSC st0 e = st0 :=
          applyIngestSC_reject st0 e (hoe ▸ hreg)
        calc applyAll st0 (e :: rest)
            = applyAll (applyIngestSC st0 e) rest := rfl
          _ = applyAll st0 rest := by rw [h1]
          _ = st0 := ih2 (fun x hx => hof x (List.mem_cons_of_mem _ hx))
            (fun x hx => hval x (List.mem_cons_of_mem _ hx))
    rw [hall, h0]
    simp [chainOk, sortByAt]

/-- Witness for C3 (amended) at a concrete in-order history. -/
theorem C3_chain_in_order_witness :
    chainOk ((applyAll (upsert_office emptyStore hqOffice)
      [{ office := "HQ", state := St.down, sample_gateway := false,
         sample_mx := false, sample_ipsec := false, at_ts := 0 },
       { office := "HQ", state := St.degraded, sample_gateway := true,
         sample_mx := false, sample_ipsec := true, at_ts := 30 },
       { office := "HQ", state := St.up, sample_gateway := true,
         sample_mx := true, sample_ipsec := true, at_ts := 90 }]).changes "HQ") :=
  C3_chain_in_order "HQ" _ _ (by decide)
    (by intro e he; fin_cases he <;> rfl)
    (by intro e he; fin_cases he <;> decide)
    (by decide)

/-- Replacing the entries of key `k` does not disturb a search for a
different key `k2`. -/
theorem find?_aset_map {β : Type} (k k2 : String) (v : β) (hne : k2 ≠ k) :
    ∀ (l : List (String × β)),
      List.find? (fun p => p.1 == k2)
        (l.map (fun p => if p.1 == k then (k, v) else p)) =
      List.find? (fun p => p.1 == k2) l := by
  intro l
  induction l with
  | nil => rfl
  | cons p rest ih =>
    simp only [List.map_cons]
    by_cases hp : p.1 = k
    · have h1 : (if (p.1 == k) = true then (k, v) else p) = (k, v) := by simp [hp]
      have h2 : ((k, v).1 == k2) = false := by simp [Ne.symm hne]
      have h3 : (p.1 == k2) = false := by simp [hp, Ne.symm hne]
      rw [h1]
      simp only [List.find?_cons, h2, h3]
      exact ih
    · have h1 : (if (p.1 == k) = true then (k, v) else p) = p := by simp [hp]
      rw [h1]
      simp only [List.find?_cons]
      cases hp2 : (p.1 == k2) with
      | true => rfl
      | false => exact ih

/-- Writing one key of an association list leaves lookups of other keys
unchanged. -/
theorem alookup_aset_ne {β : Type} (l : List (String × β)) (k k2 : String)
    (v : β) (hne : k2 ≠ k) : alookup (aset l k v) k2 = alookup l k2 := by
  unfold aset alookup
  split_ifs with hk
  · rw [find?_aset_map k k2 v hne l]
  · rw [List.find?_append]
    have h1 : List.find? (fun p => p.1 == k2) [(k, v)] = none := by
      simp [Ne.symm hne]
    rw [h1, Option.or_none]

/-- Writing a key of an association list makes its lookup return the new
value. -/
theorem alookup_aset_self {β : Type} (l : List (String × β)) (k : String)
    (v : β) : alookup (aset l k v) k = some v := by
  unfold aset alookup
  split_ifs with hk
  · induction l with
    | nil => simp at hk
    | cons p rest ih =>
      simp only [List.map_cons]
      by_cases hp : p.1 = k
      · have h1 : (if (p.1 == k) = true then (k, v) else p) = (k, v) := by simp [hp]
        have h2 : ((k, v).1 == k) = true := by simp
        rw [h1]
        simp only [List.find?_cons, h2]
        rfl
      · have h1 : (if (p.1 == k) = true then (k, v) else p) = p := by simp [hp]
        have h2 : (p.1 == k) = false := by simp [hp]
        have hk2 : rest.any (fun p => p.1 == k) = true := by
          rcases List.any_eq_true.mp hk with ⟨q, hq, hq2⟩
          rcases List.mem_cons.mp hq with hq3 | hq4
          · rw [hq3, h2] at hq2; exact Bool.noConfusion hq2
          · exact List.any_eq_true.mpr ⟨q, hq4, hq2⟩
        rw [h1]
        simp only [List.find?_cons, h2]
        exact ih hk2
  · rw [List.find?_append]
    have h1 : List.find? (fun p => p.1 == k) l = none :=
      List.find?_eq_none.mpr (fun x hx => by
        have h2 := List.any_eq_false.mp (Bool.not_eq_true _ |>.mp hk) x hx
        simpa using h2)
    rw [h1]
    simp

/-- A step of the additions/updates loop for a different name leaves that
name's office, task and hash lookups unchanged. -/
theorem reconcileStep_frame (now : Int) (acc : OfficeManager × List UpsertPayload)
    (e : String × OfficeCfg) (name : String) (hne : name ≠ e.1) :
    alookup (reconcileStep now acc e).1.offices name = alookup acc.1.offices name ∧
    alookup (reconcileStep now acc e).1.tasks name = alookup acc.1.tasks name ∧
    alookup (reconcileStep now acc e).1.hashes name = alookup acc.1.hashes name := by
  unfold reconcileStep
  cases hm : alookup acc.1.offices e.1 with
  | none =>
    simp only [hm]
    exact ⟨alookup_aset_ne _ _ _ _ hne, alookup_aset_ne _ _ _ _ hne,
      alookup_aset_ne _ _ _ _ hne⟩
  | some o =>
    simp only [hm]
    split_ifs with hh
    · exact ⟨rfl, rfl, rfl⟩
    · exact ⟨alookup_aset_ne _ _ _ _ hne, rfl, alookup_aset_ne _ _ _ _ hne⟩

/-- Folding the additions/updates loop over entries that all carry different
names leaves a name's office, task and hash lookups unchanged. -/
theorem reconcileFold_frame (now : Int) (name : String) :
    ∀ (entries : List (String × OfficeCfg))
      (acc : OfficeManager × List UpsertPayload),
      (∀ e ∈ entries, name ≠ e.1) →
      alookup (entries.foldl (reconcileStep now) acc).1.offices name =
        alookup acc.1.offices name ∧
      alookup (entries.foldl (reconcileStep now) acc).1.tasks name =
        alookup acc.1.tasks name ∧
      alookup (entries.foldl (reconcileStep now) acc).1.hashes name =
        alookup acc.1.hashes name := by
  intro entries
  induction entries with
  | nil => intro acc _; exact ⟨rfl, rfl, rfl⟩
  | cons e rest ih =>
    intro acc hne
    have h1 := reconcileStep_frame now acc e name (hne e (List.mem_cons_self _ _))
    have h2 := ih (reconcileStep now acc e)
      (fun x hx => hne x (List.mem_cons_of_mem _ hx))
    exact ⟨h2.1.trans h1.1, h2.2.1.trans h1.2.1, h2.2.2.trans h1.2.2⟩

/-- Folding the additions/updates loop over entries containing `name` with
record `rec`, while `name` is live with a changed hash, stores exactly the
in-place configuration update for `name` and leaves its task untouched. -/
theorem reconcileFold_update (now : Int) (name : String) (rec : OfficeCfg) :
    ∀ (entries : List (String × OfficeCfg))
      (acc : OfficeManager × List UpsertPayload) (o : Office),
      entries.Pairwise (fun a b => a.1 ≠ b.1) →
      alookup entries name = some rec →
      alookup acc.1.offices name = some o →
      alookup acc.1.hashes name ≠ some (hash_office_record rec) →
      alookup (entries.foldl (reconcileStep now) acc).1.offices name =
        some (updateOfficeCfg o rec) ∧
      alookup (entries.foldl (reconcileStep now) acc).1.tasks name =
        alookup acc.1.tasks name := by
  intro entries
  induction entries with
  | nil => intro acc o _ hdes; unfold alookup at hdes; simp at hdes
  | cons e rest ih =>
    intro acc o hpw hdes hoff hhash
    by_cases he : (e.1 == name) = true
    · have he1 : e.1 = name := by simpa using he
      have hrec : e.2 = rec := by
        unfold alookup at hdes
        simp only [List.find?_cons, he] at hdes
        simpa using hdes
      have hrest : ∀ x ∈ rest, name ≠ x.1 := by
        intro x hx
        have h := (List.pairwise_cons.mp hpw).1 x hx
        rw [he1] at h
        exact h
      have hstep : (reconcileStep now acc e).1.offices =
            aset acc.1.offices name (updateOfficeCfg o rec) ∧
          (reconcileStep now acc e).1.tasks = acc.1.tasks := by
        unfold reconcileStep
        simp only [he1, hoff, hrec]
        rw [if_neg hhash]
        exact ⟨rfl, rfl⟩
      have hframe := reconcileFold_frame now name rest
        (reconcileStep now acc e) hrest
      refine ⟨hframe.1.trans ?_, hframe.2.1.trans ?_⟩
      · rw [hstep.1]
        exact alookup_aset_self _ _ _
      · rw [hstep.2]
    · have he2 : alookup rest name = some rec := by
        unfold alookup at hdes ⊢
        simp only [List.find?_cons, Bool.not_eq_true _ |>.mp he] at hdes
        exact hdes
      have hfr := reconcileStep_frame now acc e name
        (by intro hcon; rw [hcon] at he; simp at he)
      have hres := ih (reconcileStep now acc e) o (List.pairwise_cons.mp hpw).2 he2
        (hfr.1.trans hoff) (by rw [hfr.2.2]; exact hhash)
      exact ⟨hres.1, hres.2.trans hfr.2.1⟩

/-- Insert-or-replace preserves distinctness of keys. -/
theorem aset_pairwise {β : Type} (l : List (String × β)) (k : String) (v : β)
    (hpw : l.Pairwise (fun a b => a.1 ≠ b.1)) :
    (aset l k v).Pairwise (fun a b => a.1 ≠ b.1) := by
  unfold aset
  split_ifs with hk
  · rw [List.pairwise_map]
    have hkey : ∀ p : String × β,
        (if (p.1 == k) = true then (k, v) else p).1 = p.1 := by
      intro p
      split_ifs with h
      · have h2 : p.1 = k := by simpa using h
        rw [h2]
      · rfl
    refine hpw.imp ?_
    intro a b hab
    rw [hkey a, hkey b]
    exact hab
  · rw [List.pairwise_append]
    refine ⟨hpw, List.pairwise_singleton _ _, ?_⟩
    intro a ha b hb
    have hb2 : b = (k, v) := by simpa using hb
    rw [hb2]
    intro hcon
    have h2 := List.any_eq_false.mp (Bool.not_eq_true _ |>.mp hk) a ha
    simp [hcon] at h2

/-- The desired map built from a snapshot has pairwise-distinct names. -/
theorem desiredMap_pairwise (cfgs : List OfficeCfg) :
    (desiredMap cfgs).Pairwise (fun a b => a.1 ≠ b.1) := by
  have hgen : ∀ (cs : List OfficeCfg) (acc : List (String × OfficeCfg)),
      acc.Pairwise (fun a b => a.1 ≠ b.1) →
      (cs.foldl (fun a o => aset a o.name o) acc).Pairwise
        (fun a b => a.1 ≠ b.1) := by
    intro cs
    induction cs with
    | nil => intro acc h; exact h
    | cons c rest ih => intro acc h; exact ih _ (aset_pairwise acc c.name c h)
  exact hgen cfgs [] List.Pairwise.nil

/-- Filtering an association list by a predicate on keys preserves the lookup
of any key the predicate accepts. -/
theorem alookup_filter_keys {β : Type} (q : String → Bool) (k : String)
    (hq : q k = true) :
    ∀ (l : List (String × β)),
      alookup (l.filter (fun p => q p.1)) k = alookup l k := by
  intro l
  induction l with
  | nil => rfl
  | cons p rest ih =>
    by_cases hp : q p.1 = true
    · unfold alookup at ih ⊢
      simp only [List.filter_cons, hp, if_true, List.find?_cons]
      cases hpk : (p.1 == k) with
      | true => rfl
      | false => exact ih
    · have hpk : (p.1 == k) = false := by
        cases hb : (p.1 == k) with
        | false => rfl
        | true =>
          have h2 : p.1 = k := by simpa using hb
          rw [h2, hq] at hp
          exact absurd rfl hp
      unfold alookup at ih ⊢
      simp only [List.filter_cons, hp, if_false, List.find?_cons, hpk]
      exact ih

/-- A successful lookup implies the key list contains the key. -/
theorem alookup_contains {β : Type} {l : List (String × β)} {k : String}
    {v : β} (h : alookup l k = some v) :
    ((l.map (fun p => p.1)).contains k) = true := by
  unfold alookup at h
  cases hf : l.find? (fun p => p.1 == k) with
  | none => rw [hf] at h; exact Option.noConfusion h
  | some p0 =>
    have hk : p0.1 = k := by simpa using List.find?_some hf
    have hmem : p0.1 ∈ l.map (fun p => p.1) :=
      List.mem_map_of_mem _ (List.mem_of_find?_eq_some hf)
    rw [hk] at hmem
    exact List.elem_eq_true_of_mem hmem

/-- C9: when reconciliation processes an already-live office whose
configuration hash changed, the stored runtime keeps its confirmed state,
streak counters, `last_change` and last sample, its probe task is not
restarted (same task identifier), and only the configuration fields take the
new record's values. -/
theorem C9_reconcile_preserves_runtime (m : OfficeManager)
    (cfgs : List OfficeCfg) (now : Int) (name : String) (o : Office)
    (rec : OfficeCfg)
    (hlive : alookup m.offices name = some o)
    (hdes : alookup (desiredMap cfgs) name = some rec)
    (hchanged : alookup m.hashes name ≠ some (hash_office_record rec)) :
    alookup (reconcile m cfgs now).1.offices name =
      some (updateOfficeCfg o rec) ∧
    alookup (reconcile m cfgs now).1.tasks name = alookup m.tasks name ∧
    (updateOfficeCfg o rec).state = o.state ∧
    (updateOfficeCfg o rec).fail_streak = o.fail_streak ∧
    (updateOfficeCfg o rec).ok_streak = o.ok_streak ∧
    (updateOfficeCfg o rec).last_change = o.last_change ∧
    (updateOfficeCfg o rec).last_sample = o.last_sample ∧
    (updateOfficeCfg o rec).gateway_ip = rec.gateway_ip ∧
    (updateOfficeCfg o rec).mx_ip = rec.mx_ip ∧
    (updateOfficeCfg o rec).tunnel_probe_ip = rec.tunnel_probe_ip ∧
    (updateOfficeCfg o rec).retries_down =
      rec.retries_down.getD office_default_down ∧
    (updateOfficeCfg o rec).retries_up =
      rec.retries_up.getD office_default_up := by
  have hq : (((desiredMap cfgs).map (fun p => p.1)).contains name) = true :=
    alookup_contains hdes
  have hm1 : reconcile m cfgs now = (desiredMap cfgs).foldl (reconcileStep now)
      ({ offices := m.offices.filter
           (fun p => ((desiredMap cfgs).map (fun p => p.1)).contains p.1),
         tasks := m.tasks.filter
           (fun p => ((desiredMap cfgs).map (fun p => p.1)).contains p.1),
         hashes := m.hashes.filter
           (fun p => ((desiredMap cfgs).map (fun p => p.1)).contains p.1),
         next_task := m.next_task }, []) := rfl
  have hoff1 : alookup (m.offices.filter
      (fun p => ((desiredMap cfgs).map (fun p => p.1)).contains p.1)) name =
      some o :=
    (alookup_filter_keys _ name hq m.offices).trans hlive
  have hhash1 : alookup (m.hashes.filter
      (fun p => ((desiredMap cfgs).map (fun p => p.1)).contains p.1)) name ≠
      some (hash_office_record rec) := by
    rw [alookup_filter_keys _ name hq m.hashes]
    exact hchanged
  have hmain := reconcileFold_update now name rec (desiredMap cfgs)
    ({ offices := m.offices.filter
         (fun p => ((desiredMap cfgs).map (fun p => p.1)).contains p.1),
       tasks := m.tasks.filter
         (fun p => ((desiredMap cfgs).map (fun p => p.1)).contains p.1),
       hashes := m.hashes.filter
         (fun p => ((desiredMap cfgs).map (fun p => p.1)).contains p.1),
       next_task := m.next_task }, []) o
    (desiredMap_pairwise cfgs) hdes hoff1 hhash1
  rw [hm1]
  refine ⟨hmain.1, ?_, rfl, rfl, rfl, rfl, rfl, rfl, rfl, rfl, rfl, rfl⟩
  exact hmain.2.trans (alookup_filter_keys _ name hq m.tasks)

/-- Witness for C9 at a concrete reconciliation. -/
theorem C9_reconcile_preserves_runtime_witness :
    alookup (reconcile mW [recW] 9999).1.offices "HQ" =
      some (updateOfficeCfg oW recW) ∧
    alookup (reconcile mW [recW] 9999).1.tasks "HQ" = alookup mW.tasks "HQ" ∧
    (updateOfficeCfg oW recW).state = oW.state ∧
    (updateOfficeCfg oW recW).fail_streak = oW.fail_streak ∧
    (updateOfficeCfg oW recW).ok_streak = oW.ok_streak ∧
    (updateOfficeCfg oW recW).last_change = oW.last_change ∧
    (updateOfficeCfg oW recW).last_sample = oW.last_sample ∧
    (updateOfficeCfg oW recW).gateway_ip = recW.gateway_ip ∧
    (updateOfficeCfg oW recW).mx_ip = recW.mx_ip ∧
    (updateOfficeCfg oW recW).tunnel_probe_ip = recW.tunnel_probe_ip ∧
    (updateOfficeCfg oW recW).retries_down =
      recW.retries_down.getD office_default_down ∧
    (updateOfficeCfg oW recW).retries_up =
      recW.retries_up.getD office_default_up :=
  C9_reconcile_preserves_runtime mW [recW] 9999 "HQ" oW recW
    (by decide) (by decide) (by decide)

/-- The SQL `CASE WHEN at_ts < t_start THEN t_start ELSE at_ts END` is the
maximum of the two. -/
theorem if_max (a b : Int) : (if a < b then b else a) = max a b := by
  split_ifs with h
  · exact (max_eq_right (le_of_lt h)).symm
  · exact (max_eq_left (le_of_not_lt h)).symm

/-- Facts about each `LEAD` pair on an ordered, bounded row list: the row is
a list member, its timestamp is at most the lead, and the lead is at most
`t_end`. -/
theorem withNext_facts (t_end : Int) :
    ∀ (F : List SCRow), F.Pairwise rowLE → (∀ r ∈ F, r.at_ts < t_end) →
      ∀ p ∈ withNext t_end F, p.1 ∈ F ∧ p.1.at_ts ≤ p.2 ∧ p.2 ≤ t_end := by
  intro F
  induction F with
  | nil => intro _ _ p hp; cases hp
  | cons r rest ih =>
    intro hpw hb p hp
    cases rest with
    | nil =>
      have hp2 : p = (r, t_end) := by simpa [withNext] using hp
      rw [hp2]
      exact ⟨List.mem_cons_self _ _, le_of_lt (hb r (List.mem_cons_self _ _)),
        le_refl _⟩
    | cons s rest2 =>
      rw [withNext] at hp
      rcases List.mem_cons.mp hp with he | hm
      · rw [he]
        refine ⟨List.mem_cons_self _ _, ?_, ?_⟩
        · exact (List.pairwise_cons.mp hpw).1 s (List.mem_cons_self _ _)
        · exact le_of_lt (hb s (List.mem_cons_of_mem _ (List.mem_cons_self _ _)))
      · have hr := ih (List.pairwise_cons.mp hpw).2
          (fun x hx => hb x (List.mem_cons_of_mem _ hx)) p hm
        exact ⟨List.mem_cons_of_mem _ hr.1, hr.2⟩

/-- Every `scw` segment of an ordered, bounded row list has nonnegative
length, and its state is some row's `to_state`. -/
theorem segsOf_facts (t_start t_end : Int) (F : List SCRow)
    (hpw : F.Pairwise rowLE) (hb : ∀ r ∈ F, r.at_ts < t_end) :
    ∀ g ∈ segsOf t_start t_end F,
      0 ≤ g.seg_end - g.seg_start ∧ ∃ r ∈ F, g.state = r.to_state := by
  intro g hg
  unfold segsOf at hg
  rcases List.mem_map.mp hg with ⟨p, hpmem, hpe⟩
  rcases List.mem_filter.mp hpmem with ⟨hpw2, hflt⟩
  have hfacts := withNext_facts t_end F hpw hb p hpw2
  have hts : t_start < p.2 := by simpa using hflt
  constructor
  · rw [← hpe]
    show 0 ≤ (if t_end < p.2 then t_end else p.2) -
      (if p.1.at_ts < t_start then t_start else p.1.at_ts)
    have h1 : p.1.at_ts ≤ p.2 := hfacts.2.1
    have h2 : p.2 ≤ t_end := hfacts.2.2
    split_ifs <;> omega
  · exact ⟨p.1, hfacts.1, by rw [← hpe]⟩

/-- The head of `withNext` over a cons. -/
theorem withNext_cons_cons (t_end : Int) (r s : SCRow) (rest : List SCRow) :
    withNext t_end (r :: s :: rest) =
      (r, s.at_ts) :: withNext t_end (s :: rest) := rfl

/-- The telescoping sum: over an ordered, bounded, nonempty row list the kept
clamped segments cover exactly `[max (first row, t_start), t_end]`. -/
theorem segsOf_telescope (t_start t_end : Int) :
    ∀ (rest : List SCRow) (r : SCRow),
      (r :: rest).Pairwise rowLE →
      (∀ x ∈ r :: rest, x.at_ts < t_end) →
      t_start < t_end →
      totalLen (segsOf t_start t_end (r :: rest)) =
        t_end - max r.at_ts t_start := by
  intro rest
  induction rest with
  | nil =>
    intro r _ hb hlt
    have h1 : t_start < t_end := hlt
    unfold segsOf withNext totalLen
    rw [List.filter_cons_of_pos (by simpa using h1), List.filter_nil]
    have h2 : (if t_end < t_end then t_end else t_end) = t_end := by
      split_ifs <;> rfl
    simp only [List.map_cons, List.map_nil, List.sum_cons, List.sum_nil]
    rw [if_max]
    omega
  | cons s rest2 ih =>
    intro r hpw hb hlt
    have hsb : s.at_ts < t_end :=
      hb s (List.mem_cons_of_mem _ (List.mem_cons_self _ _))
    have hrs : r.at_ts ≤ s.at_ts :=
      (List.pairwise_cons.mp hpw).1 s (List.mem_cons_self _ _)
    have htail : totalLen (segsOf t_start t_end (s :: rest2)) =
        t_end - max s.at_ts t_start :=
      ih s (List.pairwise_cons.mp hpw).2
        (fun x hx => hb x (List.mem_cons_of_mem _ hx)) hlt
    unfold segsOf at htail ⊢
    rw [withNext_cons_cons]
    by_cases hks : t_start < s.at_ts
    · rw [List.filter_cons_of_pos (by simpa using hks)]
      simp only [totalLen, List.map_cons, List.sum_cons] at htail ⊢
      have h1 : (if t_end < s.at_ts then t_end else s.at_ts) = s.at_ts :=
        if_neg (not_lt_of_le (le_of_lt hsb))
      rw [h1, if_max]
      have h2 : max s.at_ts t_start = s.at_ts := max_eq_left (le_of_lt hks)
      rw [h2] at htail
      rw [htail]
      have h3 : max r.at_ts t_start ≤ s.at_ts :=
        max_le hrs (le_of_lt hks)
      omega
    · rw [List.filter_cons_of_neg (by simpa using hks)]
      rw [htail]
      have h2 : max s.at_ts t_start = t_start :=
        max_eq_right (le_of_not_lt hks)
      have h3 : max r.at_ts t_start = t_start :=
        max_eq_right (le_trans hrs (le_of_not_lt hks))
      rw [h2, h3]

/-- A per-state sum over nonnegative segments is nonnegative. -/
theorem sumState_nonneg (s : St) (segs : List Seg)
    (h : ∀ g ∈ segs, 0 ≤ g.seg_end - g.seg_start) : 0 ≤ sumState s segs := by
  unfold sumState
  refine List.sum_nonneg ?_
  intro x hx
  rcases List.mem_map.mp hx with ⟨g, hgm, hge⟩
  rw [← hge]
  split_ifs with hs
  · exact h g hgm
  · exact le_refl 0

/-- Two distinct per-state sums never exceed the total length. -/
theorem sumState_pair_le (a b : St) (hne : a ≠ b) :
    ∀ (segs : List Seg), (∀ g ∈ segs, 0 ≤ g.seg_end - g.seg_start) →
      sumState a segs + sumState b segs ≤ totalLen segs := by
  intro segs
  induction segs with
  | nil => intro _; simp [sumState, totalLen]
  | cons g rest ih =>
    intro h
    have hg := h g (List.mem_cons_self _ _)
    have ihr := ih (fun x hx => h x (List.mem_cons_of_mem _ hx))
    simp only [sumState, totalLen, List.map_cons, List.sum_cons] at ihr ⊢
    by_cases ha : g.state = a
    · have hb2 : ¬ g.state = b := by rw [ha]; exact hne
      rw [if_pos ha, if_neg hb2]
      omega
    · rw [if_neg ha]
      by_cases hb2 : g.state = b
      · rw [if_pos hb2]
        omega
      · rw [if_neg hb2]
        omega

/-- When no segment carries the `unknown` state, the three per-state sums
partition the total length. -/
theorem sumState_three_eq :
    ∀ (segs : List Seg), (∀ g ∈ segs, g.state ≠ St.unknown) →
      sumState St.up segs + sumState St.degraded segs +
        sumState St.down segs = totalLen segs := by
  intro segs
  induction segs with
  | nil => intro _; simp [sumState, totalLen]
  | cons g rest ih =>
    intro h
    have ihr := ih (fun x hx => h x (List.mem_cons_of_mem _ hx))
    simp only [sumState, totalLen, List.map_cons, List.sum_cons]
    unfold sumState totalLen at ihr
    cases hs : g.state with
    | unknown => exact absurd hs (h g (List.mem_cons_self _ _))
    | up =>
      simp only [hs, if_true]
      rw [if_neg (show ¬ St.up = St.degraded by decide),
        if_neg (show ¬ St.up = St.down by decide)]
      omega
    | degraded =>
      simp only [hs, if_true]
      rw [if_neg (show ¬ St.degraded = St.up by decide),
        if_neg (show ¬ St.degraded = St.down by decide)]
      omega
    | down =>
      simp only [hs, if_true]
      rw [if_neg (show ¬ St.down = St.up by decide),
        if_neg (show ¬ St.down = St.degraded by decide)]
      omega

/-- Structural properties of the `scw` segments of a raw table: nonnegative
lengths, states drawn from the rows, a strictly ordered window, and the
telescoping total anchored at the earliest in-window row. -/
theorem scwSegs_props (t_start t_end : Int) (rows : List SCRow)
    (hne : scwSegs t_start t_end rows ≠ []) :
    (∀ g ∈ scwSegs t_start t_end rows,
       0 ≤ g.seg_end - g.seg_start ∧ ∃ r ∈ rows, g.state = r.to_state) ∧
    t_start < t_end ∧
    ∃ r1 ∈ rows, r1.at_ts < t_end ∧
      totalLen (scwSegs t_start t_end rows) = t_end - max r1.at_ts t_start ∧
      (∀ x ∈ rows, x.at_ts < t_end → r1.at_ts ≤ x.at_ts) := by
  have hFpw : ((sortByAt rows).filter
      (fun r => r.at_ts < t_end)).Pairwise rowLE :=
    (List.sorted_insertionSort rowLE rows).filter _
  have hFb : ∀ r ∈ (sortByAt rows).filter (fun r => r.at_ts < t_end),
      r.at_ts < t_end := by
    intro r hr
    have h2 := (List.mem_filter.mp hr).2
    exact of_decide_eq_true h2
  have hFrows : ∀ r ∈ (sortByAt rows).filter (fun r => r.at_ts < t_end),
      r ∈ rows := by
    intro r hr
    have h2 := (List.mem_filter.mp hr).1
    unfold sortByAt at h2
    exact (List.mem_insertionSort rowLE).mp h2
  have hrows_F : ∀ x ∈ rows, x.at_ts < t_end →
      x ∈ (sortByAt rows).filter (fun r => r.at_ts < t_end) := by
    intro x hx hxe
    refine List.mem_filter.mpr ⟨?_, by simpa using hxe⟩
    unfold sortByAt
    exact (List.mem_insertionSort rowLE).mpr hx
  have hsegs : scwSegs t_start t_end rows =
      segsOf t_start t_end ((sortByAt rows).filter
        (fun r => r.at_ts < t_end)) := rfl
  have hfacts := segsOf_facts t_start t_end _ hFpw hFb
  refine ⟨?_, ?_, ?_⟩
  · intro g hg
    rcases hfacts g (by rw [← hsegs]; exact hg) with ⟨hlen, r, hrF, hst⟩
    exact ⟨hlen, r, hFrows r hrF, hst⟩
  · rcases List.exists_mem_of_ne_nil _ hne with ⟨g, hg⟩
    rw [hsegs] at hg
    unfold segsOf at hg
    rcases List.mem_map.mp hg with ⟨p, hpmem, _⟩
    rcases List.mem_filter.mp hpmem with ⟨hpw2, hflt⟩
    have hf2 := withNext_facts t_end _ hFpw hFb p hpw2
    have hts : t_start < p.2 := by simpa using hflt
    exact lt_of_lt_of_le hts hf2.2.2
  · cases hF : (sortByAt rows).filter (fun r => r.at_ts < t_end) with
    | nil =>
      exfalso
      apply hne
      rw [hsegs, hF]
      rfl
    | cons r1 restF =>
      have hlt : t_start < t_end := by
        rcases List.exists_mem_of_ne_nil _ hne with ⟨g, hg⟩
        rw [hsegs] at hg
        unfold segsOf at hg
        rcases List.mem_map.mp hg with ⟨p, hpmem, _⟩
        rcases List.mem_filter.mp hpmem with ⟨hpw2, hflt⟩
        have hf2 := withNext_facts t_end _ hFpw hFb p hpw2
        have hts : t_start < p.2 := by simpa using hflt
        exact lt_of_lt_of_le hts hf2.2.2
      have hr1F : r1 ∈ (sortByAt rows).filter (fun r => r.at_ts < t_end) := by
        rw [hF]
        exact List.mem_cons_self _ _
      refine ⟨r1, hFrows r1 hr1F, hFb r1 hr1F, ?_, ?_⟩
      · rw [hsegs, hF]
        exact segsOf_telescope t_start t_end restF r1 (hF ▸ hFpw)
          (hF ▸ hFb) hlt
      · intro x hx hxe
        have hxF := hrows_F x hx hxe
        rw [hF] at hxF
        rcases List.mem_cons.mp hxF with he | hm
        · rw [he]
        · exact (List.pairwise_cons.mp (hF ▸ hFpw)).1 x hm

/-- Unpacking a present SLA aggregation row. -/
theorem slaOfficeCore_elim (t_start t_end : Int) (rows : List SCRow)
    (su sd sdn : Int)
    (h : slaOfficeCore t_start t_end rows = some (su, sd, sdn)) :
    scwSegs t_start t_end rows ≠ [] ∧
    su = sumState St.up (scwSegs t_start t_end rows) ∧
    sd = sumState St.degraded (scwSegs t_start t_end rows) ∧
    sdn = sumState St.down (scwSegs t_start t_end rows) := by
  simp only [slaOfficeCore] at h
  split_ifs at h with he
  have hne : scwSegs t_start t_end rows ≠ [] := by
    intro hcon
    exact he (by rw [hcon]; rfl)
  have h2 := Option.some.inj h
  simp only [Prod.ext_iff] at h2
  exact ⟨hne, h2.1.symm, h2.2.1.symm, h2.2.2.symm⟩

/-- The per-state sums of a present SLA row are nonnegative, and the up and
degraded sums together never exceed the window span. -/
theorem slaOfficeCore_nonneg (t_start t_end : Int) (rows : List SCRow)
    (su sd sdn : Int)
    (h : slaOfficeCore t_start t_end rows = some (su, sd, sdn)) :
    0 ≤ su ∧ 0 ≤ sd ∧ 0 ≤ sdn ∧ su + sd ≤ t_end - t_start ∧
    t_start < t_end := by
  rcases slaOfficeCore_elim t_start t_end rows su sd sdn h with
    ⟨hne, h1, h2, h3⟩
  rcases scwSegs_props t_start t_end rows hne with
    ⟨hfacts, hlt, r1, _, _, htel, _⟩
  have hlen : ∀ g ∈ scwSegs t_start t_end rows,
      0 ≤ g.seg_end - g.seg_start := fun g hg => (hfacts g hg).1
  have hmax : t_start ≤ max r1.at_ts t_start := le_max_right _ _
  have hpair := sumState_pair_le St.up St.degraded (by decide)
    (scwSegs t_start t_end rows) hlen
  refine ⟨?_, ?_, ?_, ?_, hlt⟩
  · rw [h1]; exact sumState_nonneg _ _ hlen
  · rw [h2]; exact sumState_nonneg _ _ hlen
  · rw [h3]; exact sumState_nonneg _ _ hlen
  · rw [h1, h2]
    omega

/-- On a table whose states avoid `unknown`, the three per-state sums of a
present SLA row are bounded by the window span, with equality exactly when
the office has a row at or before `t_start`. -/
theorem slaOfficeCore_total (t_start t_end : Int) (rows : List SCRow)
    (su sd sdn : Int)
    (hw : ∀ r ∈ rows, r.to_state ≠ St.unknown)
    (h : slaOfficeCore t_start t_end rows = some (su, sd, sdn)) :
    su + sd + sdn ≤ t_end - t_start ∧
    (su + sd + sdn = t_end - t_start ↔ ∃ r ∈ rows, r.at_ts ≤ t_start) := by
  rcases slaOfficeCore_elim t_start t_end rows su sd sdn h with
    ⟨hne, h1, h2, h3⟩
  rcases scwSegs_props t_start t_end rows hne with
    ⟨hfacts, hlt, r1, hr1m, hr1e, htel, hmin⟩
  have hstates : ∀ g ∈ scwSegs t_start t_end rows, g.state ≠ St.unknown := by
    intro g hg
    rcases (hfacts g hg).2 with ⟨r, hrm, hst⟩
    rw [hst]
    exact hw r hrm
  have hsum : su + sd + sdn = totalLen (scwSegs t_start t_end rows) := by
    rw [h1, h2, h3]
    exact sumState_three_eq _ hstates
  have hmax : t_start ≤ max r1.at_ts t_start := le_max_right _ _
  constructor
  · omega
  · rw [hsum, htel]
    constructor
    · intro hEq
      have hmx : max r1.at_ts t_start = t_start := by omega
      exact ⟨r1, hr1m, max_eq_right_iff.mp hmx⟩
    · intro hEx
      rcases hEx with ⟨x, hxm, hxle⟩
      have hxe : x.at_ts < t_end := lt_of_le_of_lt hxle hlt
      have hr1x : r1.at_ts ≤ x.at_ts := hmin x hxm hxe
      have hmx : max r1.at_ts t_start = t_start :=
        max_eq_right_iff.mpr (le_trans hr1x hxle)
      omega

/-- Unpacking a present `slaOffice` row into its aggregation components. -/
theorem slaOffice_elim (st : Store) (a b : Int) (o : OfficeRow) (row : SlaRow)
    (h : slaOffice st a b o = some row) :
    ∃ su sd sdn, slaOfficeCore a b (st.changes o.name) = some (su, sd, sdn) ∧
      row.office = o.name ∧ row.sec_up = su ∧ row.sec_deg = sd ∧
      row.sec_down = sdn ∧ row.sec_total = b - a ∧
      row.uptime_strict = round6 ((su : ℚ) / ((max 1 (b - a) : Int) : ℚ)) ∧
      row.uptime_lenient =
        round6 (((su : ℚ) + (sd : ℚ)) / ((max 1 (b - a) : Int) : ℚ)) := by
  simp only [slaOffice] at h
  cases hc : slaOfficeCore a b (st.changes o.name) with
  | none =>
    rw [hc] at h
    exact Option.noConfusion h
  | some sums =>
    rw [hc] at h
    obtain ⟨su, sd, sdn⟩ := sums
    have hrow := Option.some.inj h
    refine ⟨su, sd, sdn, rfl, ?_, ?_, ?_, ?_, ?_, ?_, ?_⟩ <;> rw [← hrow]

/-- Every returned SLA row comes from `slaOffice` at the resolved window for
some registry office. -/
theorem sla_mem_elim (st : Store) (office : Option String) (tq te : Option Int)
    (now : Int) (row : SlaRow)
    (hmem : row ∈ (sla st office tq te now).rows) :
    ∃ o ∈ st.offices,
      slaOffice st (sla st office tq te now).t_start
        (sla st office tq te now).t_end o = some row := by
  simp only [sla] at hmem ⊢
  have h2 := (List.mem_insertionSort nameLE).mp hmem
  rcases List.mem_filterMap.mp h2 with ⟨o, ho, hso⟩
  exact ⟨o, (List.mem_filter.mp ho).1, hso⟩

/-- Rounding to six decimals is monotone. -/
theorem round6_mono {q q2 : ℚ} (h : q ≤ q2) : round6 q ≤ round6 q2 := by
  unfold round6
  have h1 : q * 1000000 ≤ q2 * 1000000 :=
    mul_le_mul_of_nonneg_right h (by norm_num)
  have h2 : round (q * 1000000) ≤ round (q2 * 1000000) := by
    rw [round_eq, round_eq]
    exact Int.floor_le_floor (by linarith)
  have h3 : ((round (q * 1000000) : ℤ) : ℚ) ≤
      ((round (q2 * 1000000) : ℤ) : ℚ) := by exact_mod_cast h2
  exact (div_le_div_iff_of_pos_right (by norm_num)).mpr h3

/-- A ratio at most one rounds to at most one. -/
theorem round6_le_one {q : ℚ} (h : q ≤ 1) : round6 q ≤ 1 := by
  have h2 := round6_mono h
  have h3 : round6 1 = 1 := by
    norm_num [round6, round_eq, Int.floor_eq_iff]
  rw [h3] at h2
  exact h2

/-- C7: every returned SLA row satisfies
`uptime_strict ≤ uptime_lenient ≤ 1`, both ratios using the divisor
`max 1 (t_end − t_start)`. -/
theorem C7_uptime_bounds (st : Store) (office : Option String)
    (tq te : Option Int) (now : Int) (row : SlaRow)
    (hmem : row ∈ (sla st office tq te now).rows) :
    row.uptime_strict ≤ row.uptime_lenient ∧ row.uptime_lenient ≤ 1 := by
  rcases sla_mem_elim st office tq te now row hmem with ⟨o, _, hso⟩
  rcases slaOffice_elim st _ _ o row hso with
    ⟨su, sd, sdn, hc, _, _, _, _, _, hstr, hlen⟩
  rcases slaOfficeCore_nonneg _ _ _ su sd sdn hc with ⟨h0u, h0d, _, hud, _⟩
  have hD1 : (1 : Int) ≤ max 1 ((sla st office tq te now).t_end -
      (sla st office tq te now).t_start) := le_max_left _ _
  have hD : (0 : ℚ) < ((max 1 ((sla st office tq te now).t_end -
      (sla st office tq te now).t_start) : Int) : ℚ) := by
    exact_mod_cast lt_of_lt_of_le zero_lt_one hD1
  constructor
  · rw [hstr, hlen]
    refine round6_mono ((div_le_div_iff_of_pos_right hD).mpr ?_)
    have hd2 : (0 : ℚ) ≤ (sd : ℚ) := by exact_mod_cast h0d
    linarith
  · rw [hlen]
    refine round6_le_one ((div_le_one hD).mpr ?_)
    have h4 : su + sd ≤ max 1 ((sla st office tq te now).t_end -
        (sla st office tq te now).t_start) :=
      le_trans hud (le_max_right _ _)
    exact_mod_cast h4

/-- C6: every returned SLA row satisfies
`sec_up + sec_deg + sec_down ≤ sec_total`, with equality exactly when the
office has a state change at or before the resolved `t_start`. -/
theorem C6_span_bounds (st : Store) (office : Option String)
    (tq te : Option Int) (now : Int) (row : SlaRow)
    (hw : ∀ n : String, ∀ r ∈ st.changes n, r.to_state ≠ St.unknown)
    (hmem : row ∈ (sla st office tq te now).rows) :
    row.sec_up + row.sec_deg + row.sec_down ≤ row.sec_total ∧
    (row.sec_up + row.sec_deg + row.sec_down = row.sec_total ↔
      ∃ r ∈ st.changes row.office,
        r.at_ts ≤ (sla st office tq te now).t_start) := by
  rcases sla_mem_elim st office tq te now row hmem with ⟨o, _, hso⟩
  rcases slaOffice_elim st _ _ o row hso with
    ⟨su, sd, sdn, hc, hoff, hsu, hsd, hsdn, htot, _, _⟩
  rcases slaOfficeCore_total _ _ _ su sd sdn (hw o.name) hc with ⟨hle, hiff⟩
  rw [hsu, hsd, hsdn, htot, hoff]
  exact ⟨hle, hiff⟩

/-- The single row returned for `storeW` over the window `[10, 20]`. -/
theorem storeW_rows :
    (sla storeW none (some 10) (some 20) 0).rows = [rowW] := by
  simp only [sla, orDefault, officeSelected, storeW]
  norm_num [slaOffice, slaOfficeCore, scwSegs, segsOf, sortByAt, withNext,
    sumState, latestRow, latestSample, List.insertionSort, List.orderedInsert,
    List.filter, List.filterMap, rowW]
  simp [round6, round_eq]

/-- Witness for C7 at the concrete window. -/
theorem C7_uptime_bounds_witness :
    rowW.uptime_strict ≤ rowW.uptime_lenient ∧ rowW.uptime_lenient ≤ 1 :=
  C7_uptime_bounds storeW none (some 10) (some 20) 0 rowW
    (by rw [storeW_rows]; exact List.mem_cons_self _ _)

/-- Witness for C6 at the concrete window. -/
theorem C6_span_bounds_witness :
    rowW.sec_up + rowW.sec_deg + rowW.sec_down ≤ rowW.sec_total ∧
    (rowW.sec_up + rowW.sec_deg + rowW.sec_down = rowW.sec_total ↔
      ∃ r ∈ storeW.changes rowW.office,
        r.at_ts ≤ (sla storeW none (some 10) (some 20) 0).t_start) :=
  C6_span_bounds storeW none (some 10) (some 20) 0 rowW
    (by
      intro n r hr
      by_cases hn : n = "A"
      · have hch : storeW.changes n =
            [{ at_ts := 0, from_state := St.unknown, to_state := St.up,
               sample_gateway := true, sample_mx := true,
               sample_ipsec := true }] := by
          simp [storeW, hn]
        rw [hch] at hr
        have hr2 := List.mem_singleton.mp hr
        rw [hr2]
        decide
      · have hch : storeW.changes n = [] := by simp [storeW, hn]
        rw [hch] at hr
        cases hr)
    (by rw [storeW_rows]; exact List.mem_cons_self _ _)
